import Mathlib

/-!
# Verification of the arca-agent reconciliation core

A shallow embedding of the arca-agent's reconciliation engine
(`src/arca-agent/tetrate.py` and `src/arca-agent/agent.py`):

* JSON-like documents (`Value`, `Doc`) with Python-dict semantics
  (insertion order preserved, assignment replaces in place);
* `recursive_merge` (tetrate.py lines 90-122), including the special
  union handling for `namespaceSelector.names`;
* the create-or-update protocols of `Workspace`, `WorkspaceSetting` and
  `GatewayGroup` (tetrate.py), run against an abstract remote server;
* the agent's event handlers (`agent.py`): configuration processing,
  namespace/service watches and service exposure.

Python code that can raise on malformed data is embedded with `Option`:
`none` models the run raising an exception.  In particular the merge
returns `none` where CPython would fault (or chararacter-iterate a
string) because a `names` entry is not a list.
-/

namespace Arca

/-- JSON-like values, the data manipulated by the agent.  Python dicts are
embedded as association lists in insertion order (`vObj`); Python lists as
`vList`. -/
inductive Value where
  | vNull : Value
  | vBool : Bool → Value
  | vInt : Int → Value
  | vStr : String → Value
  | vList : List Value → Value
  | vObj : List (String × Value) → Value
  deriving Repr

mutual

/-- Boolean equality on values (needed because the nested inductive does not
support derived `DecidableEq`). -/
def beqV : Value → Value → Bool
  | .vNull, .vNull => true
  | .vBool a, .vBool b => a == b
  | .vInt a, .vInt b => a == b
  | .vStr a, .vStr b => a == b
  | .vList a, .vList b => beqL a b
  | .vObj a, .vObj b => beqO a b
  | _, _ => false

/-- Boolean equality on lists of values. -/
def beqL : List Value → List Value → Bool
  | [], [] => true
  | a :: as, b :: bs => beqV a b && beqL as bs
  | _, _ => false

/-- Boolean equality on objects. -/
def beqO : List (String × Value) → List (String × Value) → Bool
  | [], [] => true
  | (k, a) :: as, (k', b) :: bs => k == k' && beqV a b && beqO as bs
  | _, _ => false

end

mutual

theorem beqV_iff : ∀ a b : Value, beqV a b = true ↔ a = b
  | .vNull, b => by cases b <;> simp [beqV]
  | .vBool x, b => by cases b <;> simp [beqV]
  | .vInt x, b => by cases b <;> simp [beqV]
  | .vStr x, b => by cases b <;> simp [beqV]
  | .vList l, b => by
      cases b <;> simp [beqV]
      exact beqL_iff l _
  | .vObj o, b => by
      cases b <;> simp [beqV]
      exact beqO_iff o _

theorem beqL_iff : ∀ a b : List Value, beqL a b = true ↔ a = b
  | [], b => by cases b <;> simp [beqL]
  | x :: xs, b => by
      cases b with
      | nil => simp [beqL]
      | cons y ys =>
        simp only [beqL, Bool.and_eq_true, List.cons.injEq]
        rw [beqV_iff x y, beqL_iff xs ys]

theorem beqO_iff : ∀ a b : List (String × Value), beqO a b = true ↔ a = b
  | [], b => by cases b <;> simp [beqO]
  | (k, x) :: xs, b => by
      cases b with
      | nil => simp [beqO]
      | cons y ys =>
        obtain ⟨k', y⟩ := y
        simp only [beqO, Bool.and_eq_true, List.cons.injEq, Prod.mk.injEq, beq_iff_eq,
          beqV_iff x y, beqO_iff xs ys]

end

instance : DecidableEq Value := fun a b =>
  decidable_of_iff (beqV a b = true) (beqV_iff a b)

/-- A JSON object / Python dict: keys with values, in insertion order. -/
abbrev Doc := List (String × Value)

/-- `d.get(k)`: first binding of `k` in the object. -/
def lookupKey (d : Doc) (k : String) : Option Value :=
  match d with
  | [] => none
  | (k', v) :: rest => if k' = k then some v else lookupKey rest k

/-- `k in d` for a Python dict. -/
def hasKey (d : Doc) (k : String) : Bool :=
  (lookupKey d k).isSome

/-- `d[k] = v` for a Python dict: replaces the value in place if the key is
present (insertion order kept), otherwise appends the new binding. -/
def setKey (d : Doc) (k : String) (v : Value) : Doc :=
  match d with
  | [] => [(k, v)]
  | (k', v') :: rest => if k' = k then (k, v) :: rest else (k', v') :: setKey rest k v

/-- Python truthiness of a JSON value (`if x:`). -/
def pyTruthy : Value → Bool
  | .vNull => false
  | .vBool b => b
  | .vInt n => n ≠ 0
  | .vStr s => s ≠ ""
  | .vList l => !l.isEmpty
  | .vObj o => !o.isEmpty

/-- The list-combining loop of `recursive_merge` (tetrate.py lines 105-109):
start from the existing names and append each new name not already present. -/
def pyUnion (ex nw : List Value) : List Value :=
  nw.foldl (fun acc n => if n ∈ acc then acc else acc ++ [n]) ex

/-- The subkey-copying loop of the selector special case (tetrate.py lines
114-117): `for subkey in d2[key]: if subkey != 'names': d1[key][subkey] = d2[key][subkey]`. -/
def subkeyLoop (o2 acc : List (String × Value)) : List (String × Value) :=
  o2.foldl (fun acc e => if e.1 ≠ "names" then setKey acc e.1 e.2 else acc) acc

/-- The `namespaceSelector` special case of `recursive_merge` (tetrate.py
lines 97-117), acting on the two selector objects: ensure `d1`'s selector has
a `names` entry; when the overlay selector has one, combine the two names
lists and copy the other overlay subkeys; `none` models the Python error
raised when a `names` entry is not a list. -/
def selCombine (o1 o2 : List (String × Value)) : Option (List (String × Value)) :=
  -- `if 'names' not in d1[key]: d1[key]['names'] = []`
  let o1a := if hasKey o1 "names" then o1 else setKey o1 "names" (.vList [])
  match lookupKey o2 "names" with
  | some nv2 =>
    match lookupKey o1a "names", nv2 with
    | some (.vList ex), .vList nw =>
      some (subkeyLoop o2 (setKey o1a "names" (.vList (pyUnion ex nw))))
    | _, _ => none
  | none => some o1a

mutual

/-- The body of `recursive_merge(d1, d2)` (tetrate.py lines 90-122): iterate
over `d2`'s keys in order, updating `d1`.  `none` models a Python error
(a `names` entry that is not a list). -/
def mergeEntries (d1 : Doc) : List (String × Value) → Option Doc
  | [] => some d1
  | (k, v) :: rest => do
      let d1' ← mergeStep d1 k v
      mergeEntries d1' rest
termination_by l => sizeOf l

/-- One iteration of the `for key in d2` loop of `recursive_merge`:
the `namespaceSelector` union special case (lines 97-117, via `selCombine`),
the recursive dict-dict case (lines 119-120), and the overwrite fallback
(line 122). -/
def mergeStep (d1 : Doc) (key : String) (v2 : Value) : Option Doc :=
  match lookupKey d1 key, v2 with
  | some (.vObj o1), .vObj o2 =>
    if key = "namespaceSelector" then
      (selCombine o1 o2).map (fun o => setKey d1 key (.vObj o))
    else
      (mergeEntries o1 o2).map (fun o => setKey d1 key (.vObj o))
  | _, _ => some (setKey d1 key v2)
termination_by sizeOf v2

end

/-- `recursive_merge(d1, d2)` (tetrate.py lines 90-122), as a function on the
mutated first argument.  `none` models the call raising. -/
def recursive_merge (d1 d2 : Doc) : Option Doc :=
  mergeEntries d1 d2

/-! ## Basic lemmas about the dict operations -/

theorem lookupKey_setKey_self (d : Doc) (k : String) (v : Value) :
    lookupKey (setKey d k v) k = some v := by
  induction d with
  | nil => simp [setKey, lookupKey]
  | cons e rest ih =>
    obtain ⟨k', v'⟩ := e
    by_cases h : k' = k <;> simp [setKey, lookupKey, h, ih]

theorem lookupKey_setKey_ne (d : Doc) {k k' : String} (v : Value) (h : k' ≠ k) :
    lookupKey (setKey d k v) k' = lookupKey d k' := by
  induction d with
  | nil => simp [setKey, lookupKey, Ne.symm h]
  | cons e rest ih =>
    obtain ⟨k0, v0⟩ := e
    by_cases h0 : k0 = k
    · subst h0
      simp [setKey, lookupKey, Ne.symm h]
    · simp only [setKey, if_neg h0, lookupKey]
      by_cases h1 : k0 = k' <;> simp [h1, ih]

theorem setKey_of_lookup_eq {d : Doc} {k : String} {v : Value}
    (h : lookupKey d k = some v) : setKey d k v = d := by
  induction d with
  | nil => simp [lookupKey] at h
  | cons e rest ih =>
    obtain ⟨k0, v0⟩ := e
    by_cases h0 : k0 = k
    · subst h0
      rw [lookupKey, if_pos rfl] at h
      injection h with h1
      subst h1
      simp [setKey]
    · simp only [lookupKey, if_neg h0] at h
      simp [setKey, h0, ih h]

theorem setKey_setKey (d : Doc) (k : String) (v w : Value) :
    setKey (setKey d k v) k w = setKey d k w := by
  induction d with
  | nil => simp [setKey]
  | cons e rest ih =>
    obtain ⟨k0, v0⟩ := e
    by_cases h0 : k0 = k <;> simp [setKey, h0, ih]

theorem hasKey_setKey (d : Doc) (k k' : String) (v : Value) :
    hasKey (setKey d k v) k' = (decide (k' = k) || hasKey d k') := by
  by_cases h : k' = k
  · subst h
    simp [hasKey, lookupKey_setKey_self]
  · simp [hasKey, lookupKey_setKey_ne d v h, h]

/-! ## Lemmas about the names-union loop -/

theorem pyUnion_nil_right (ex : List Value) : pyUnion ex [] = ex := rfl

theorem pyUnion_cons (ex : List Value) (n : Value) (nw : List Value) :
    pyUnion ex (n :: nw) = pyUnion (if n ∈ ex then ex else ex ++ [n]) nw := by
  simp [pyUnion, List.foldl_cons]

theorem mem_pyUnion (ex nw : List Value) (v : Value) :
    v ∈ pyUnion ex nw ↔ v ∈ ex ∨ v ∈ nw := by
  induction nw generalizing ex with
  | nil => simp [pyUnion_nil_right]
  | cons n nw ih =>
    rw [pyUnion_cons]
    by_cases h : n ∈ ex
    · rw [if_pos h, ih]
      constructor
      · tauto
      · rintro (h1 | h1)
        · tauto
        · rcases List.mem_cons.mp h1 with h2 | h2
          · subst h2; tauto
          · tauto
    · rw [if_neg h, ih]
      simp only [List.mem_append, List.mem_singleton, List.mem_cons]
      tauto

theorem pyUnion_nodup {ex : List Value} (nw : List Value) (h : ex.Nodup) :
    (pyUnion ex nw).Nodup := by
  induction nw generalizing ex with
  | nil => exact h
  | cons n nw ih =>
    rw [pyUnion_cons]
    by_cases hn : n ∈ ex
    · rw [if_pos hn]; exact ih h
    · rw [if_neg hn]
      exact ih (by simp [List.nodup_append, h, hn])

theorem pyUnion_of_subset {ex nw : List Value} (h : ∀ v ∈ nw, v ∈ ex) :
    pyUnion ex nw = ex := by
  induction nw with
  | nil => rfl
  | cons n nw ih =>
    rw [pyUnion_cons, if_pos (h n (by simp))]
    exact ih fun v hv => h v (by simp [hv])

/-! ## Well-formedness of documents

`wfV strict v` captures the shape assumptions under which the merge is
well-behaved: object keys are distinct (as for any Python dict), and every
`namespaceSelector` binding that is an object carries a list-valued
`names` entry (`strict = true` requires `names` to be present, matching
the desired-state fragments the agent builds; `strict = false` only
requires it to be a list when present). -/

/-- Distinctness of the keys of an object, as Python dicts guarantee. -/
def nodupKeysB : List (String × Value) → Bool
  | [] => true
  | (k, _) :: rest => !(hasKey rest k) && nodupKeysB rest

/-- The selector rule for one binding: if `k` is `namespaceSelector` and the
value is an object, its `names` entry must be a list (and be present, when
`strict`). -/
def selBindOk (strict : Bool) (k : String) (v : Value) : Bool :=
  if k = "namespaceSelector" then
    match v with
    | .vObj so =>
      match lookupKey so "names" with
      | some (.vList _) => true
      | some _ => false
      | none => !strict
    | _ => true
  else true

mutual

/-- Well-formedness of a value (see the section comment). -/
def wfV (strict : Bool) : Value → Bool
  | .vObj o => nodupKeysB o && wfEntries strict o
  | _ => true

/-- Well-formedness of an object's entries. -/
def wfEntries (strict : Bool) : List (String × Value) → Bool
  | [] => true
  | (k, v) :: rest => selBindOk strict k v && wfV strict v && wfEntries strict rest

end

/-- Well-formedness of a document (top-level object). -/
def wfD (strict : Bool) (d : Doc) : Bool :=
  wfV strict (.vObj d)

/-! ## A normal form for one merge iteration

One iteration of the `for key in d2` loop only reads and writes the binding
of `key`: it stores `stepValue` of the current value at that key. -/

/-- The new value that one `recursive_merge` iteration stores at `key`, as a
function of the current value at that key (`u`) and the overlay value. -/
def stepValue (u : Option Value) (key : String) (v2 : Value) : Option Value :=
  match u, v2 with
  | some (.vObj o1), .vObj o2 =>
    if key = "namespaceSelector" then (selCombine o1 o2).map .vObj
    else (mergeEntries o1 o2).map .vObj
  | _, _ => some v2

theorem mergeStep_eq (d1 : Doc) (k : String) (v : Value) :
    mergeStep d1 k v = (stepValue (lookupKey d1 k) k v).map (fun w => setKey d1 k w) := by
  cases hu : lookupKey d1 k with
  | none => cases v <;> simp [mergeStep, stepValue, hu]
  | some u =>
    cases u <;> cases v <;>
      simp [mergeStep, stepValue, hu, Option.map_map, Function.comp_def] <;>
      by_cases hk : k = "namespaceSelector" <;>
        simp [hk, Option.map_map, Function.comp_def]

theorem mergeEntries_nil (d1 : Doc) : mergeEntries d1 [] = some d1 := by
  simp [mergeEntries]

theorem mergeEntries_cons (d1 : Doc) (k : String) (v : Value)
    (rest : List (String × Value)) :
    mergeEntries d1 ((k, v) :: rest) =
      (mergeStep d1 k v).bind (fun d => mergeEntries d rest) := by
  simp [mergeEntries]

/-! ## Destructors for well-formedness -/

theorem mem_hasKey {d : Doc} {k : String} {v : Value} (h : (k, v) ∈ d) :
    hasKey d k = true := by
  induction d with
  | nil => simp at h
  | cons e rest ih =>
    obtain ⟨k0, v0⟩ := e
    rcases List.mem_cons.mp h with h1 | h1
    · obtain ⟨rfl, rfl⟩ := Prod.mk.injEq .. ▸ h1
      simp [hasKey, lookupKey]
    · by_cases h0 : k0 = k <;> simp [hasKey, lookupKey, h0] at ih ⊢ <;>
        exact ih h1

theorem nodup_lookup {o : List (String × Value)} {k : String} {v : Value}
    (hn : nodupKeysB o = true) (h : (k, v) ∈ o) : lookupKey o k = some v := by
  induction o with
  | nil => simp at h
  | cons e rest ih =>
    obtain ⟨k0, v0⟩ := e
    simp only [nodupKeysB, Bool.and_eq_true, Bool.not_eq_true'] at hn
    rcases List.mem_cons.mp h with h1 | h1
    · obtain ⟨rfl, rfl⟩ := Prod.mk.injEq .. ▸ h1
      simp [lookupKey]
    · by_cases h0 : k0 = k
      · subst h0
        exact absurd (mem_hasKey h1) (by simp [hn.1])
      · simp [lookupKey, h0, ih hn.2 h1]

theorem wfEntries_mem {strict : Bool} {o : List (String × Value)}
    {k : String} {v : Value} (hw : wfEntries strict o = true) (h : (k, v) ∈ o) :
    selBindOk strict k v = true ∧ wfV strict v = true := by
  induction o with
  | nil => simp at h
  | cons e rest ih =>
    obtain ⟨k0, v0⟩ := e
    simp only [wfEntries, Bool.and_eq_true] at hw
    rcases List.mem_cons.mp h with h1 | h1
    · obtain ⟨rfl, rfl⟩ := Prod.mk.injEq .. ▸ h1
      exact ⟨hw.1.1, hw.1.2⟩
    · exact ih hw.2 h1

theorem wfV_obj_nodup {strict : Bool} {o : List (String × Value)}
    (h : wfV strict (.vObj o) = true) : nodupKeysB o = true := by
  simp only [wfV, Bool.and_eq_true] at h
  exact h.1

theorem wfV_obj_entries {strict : Bool} {o : List (String × Value)}
    (h : wfV strict (.vObj o) = true) : wfEntries strict o = true := by
  simp only [wfV, Bool.and_eq_true] at h
  exact h.2

theorem lookup_mem {d : Doc} {k : String} {v : Value}
    (h : lookupKey d k = some v) : (k, v) ∈ d := by
  induction d with
  | nil => simp [lookupKey] at h
  | cons e rest ih =>
    obtain ⟨k0, v0⟩ := e
    by_cases h0 : k0 = k
    · subst h0
      rw [lookupKey, if_pos rfl] at h
      injection h with h1
      subst h1
      simp
    · rw [lookupKey, if_neg h0] at h
      exact List.mem_cons_of_mem _ (ih h)

/-! ## Preservation lemmas for `setKey` and the subkey loop -/

theorem nodupKeysB_setKey (d : Doc) (k : String) (v : Value) :
    nodupKeysB (setKey d k v) = nodupKeysB d := by
  induction d with
  | nil => simp [setKey, nodupKeysB, hasKey, lookupKey]
  | cons e rest ih =>
    obtain ⟨k0, v0⟩ := e
    by_cases h0 : k0 = k
    · subst h0
      simp [setKey, nodupKeysB]
    · simp only [setKey, if_neg h0, nodupKeysB, ih, hasKey]
      rw [lookupKey_setKey_ne rest v h0]

theorem wfEntries_setKey {strict : Bool} {d : Doc} {k : String} {v : Value}
    (hd : wfEntries strict d = true) (hb : selBindOk strict k v = true)
    (hv : wfV strict v = true) : wfEntries strict (setKey d k v) = true := by
  induction d with
  | nil => simp [setKey, wfEntries, hb, hv]
  | cons e rest ih =>
    obtain ⟨k0, v0⟩ := e
    simp only [wfEntries, Bool.and_eq_true] at hd
    by_cases h0 : k0 = k
    · subst h0
      simp [setKey, wfEntries, hb, hv, hd.2]
    · simp [setKey, h0, wfEntries, hd.1.1, hd.1.2, ih hd.2]

theorem wfD_setKey {strict : Bool} {d : Doc} {k : String} {v : Value}
    (hd : wfD strict d = true) (hb : selBindOk strict k v = true)
    (hv : wfV strict v = true) : wfD strict (setKey d k v) = true := by
  simp only [wfD, wfV, Bool.and_eq_true] at hd ⊢
  exact ⟨(nodupKeysB_setKey d k v).symm ▸ hd.1, wfEntries_setKey hd.2 hb hv⟩

theorem subkeyLoop_cons (k0 : String) (v0 : Value)
    (rest acc : List (String × Value)) :
    subkeyLoop ((k0, v0) :: rest) acc =
      subkeyLoop rest (if k0 ≠ "names" then setKey acc k0 v0 else acc) := by
  simp [subkeyLoop, List.foldl_cons]

theorem subkeyLoop_lookup_names (o2 acc : List (String × Value)) :
    lookupKey (subkeyLoop o2 acc) "names" = lookupKey acc "names" := by
  induction o2 generalizing acc with
  | nil => rfl
  | cons e rest ih =>
    obtain ⟨k0, v0⟩ := e
    rw [subkeyLoop_cons]
    by_cases h0 : k0 = "names"
    · rw [if_neg (by simp [h0]), ih]
    · rw [if_pos h0, ih, lookupKey_setKey_ne acc v0 (Ne.symm h0)]

theorem subkeyLoop_lookup_of_not_mem {o2 : List (String × Value)} {k : String}
    (h : hasKey o2 k = false) (acc : List (String × Value)) :
    lookupKey (subkeyLoop o2 acc) k = lookupKey acc k := by
  induction o2 generalizing acc with
  | nil => rfl
  | cons e rest ih =>
    obtain ⟨k0, v0⟩ := e
    simp only [hasKey, lookupKey] at h
    by_cases h0 : k0 = k
    · simp [h0] at h
    · simp only [if_neg h0] at h
      rw [subkeyLoop_cons]
      by_cases h1 : k0 = "names"
      · rw [if_neg (by simp [h1])]
        exact ih (by simp [hasKey, h]) acc
      · rw [if_pos h1, ih (by simp [hasKey, h]), lookupKey_setKey_ne acc v0 (Ne.symm h0)]

theorem subkeyLoop_lookup_of_mem {o2 : List (String × Value)} {k : String} {v : Value}
    (hn : nodupKeysB o2 = true) (hm : (k, v) ∈ o2) (hk : k ≠ "names")
    (acc : List (String × Value)) :
    lookupKey (subkeyLoop o2 acc) k = some v := by
  induction o2 generalizing acc with
  | nil => simp at hm
  | cons e rest ih =>
    obtain ⟨k0, v0⟩ := e
    simp only [nodupKeysB, Bool.and_eq_true, Bool.not_eq_true'] at hn
    rw [subkeyLoop_cons]
    rcases List.mem_cons.mp hm with h1 | h1
    · obtain ⟨rfl, rfl⟩ := Prod.mk.injEq .. ▸ h1
      rw [if_pos hk, subkeyLoop_lookup_of_not_mem hn.1, lookupKey_setKey_self]
    · have hk0 : k0 ≠ k := by
        intro h
        subst h
        exact absurd (mem_hasKey h1) (by simp [hn.1])
      by_cases h2 : k0 = "names"
      · rw [if_neg (by simp [h2])]
        exact ih hn.2 h1 acc
      · rw [if_pos h2]
        exact ih hn.2 h1 _

theorem subkeyLoop_fixed {o2 acc : List (String × Value)}
    (h : ∀ p ∈ o2, p.1 ≠ "names" → lookupKey acc p.1 = some p.2) :
    subkeyLoop o2 acc = acc := by
  induction o2 with
  | nil => rfl
  | cons e rest ih =>
    obtain ⟨k0, v0⟩ := e
    rw [subkeyLoop_cons]
    by_cases h0 : k0 = "names"
    · rw [if_neg (by simp [h0])]
      exact ih fun p hp hk => h p (List.mem_cons_of_mem _ hp) hk
    · rw [if_pos h0, setKey_of_lookup_eq (h (k0, v0) (by simp) h0)]
      exact ih fun p hp hk => h p (List.mem_cons_of_mem _ hp) hk

theorem nodupKeysB_subkeyLoop (o2 acc : List (String × Value))
    (h : nodupKeysB acc = true) : nodupKeysB (subkeyLoop o2 acc) = true := by
  induction o2 generalizing acc with
  | nil => exact h
  | cons e rest ih =>
    obtain ⟨k0, v0⟩ := e
    rw [subkeyLoop_cons]
    by_cases h0 : k0 = "names"
    · rw [if_neg (by simp [h0])]
      exact ih _ h
    · rw [if_pos h0]
      exact ih _ (by rw [nodupKeysB_setKey]; exact h)

/-! ## Absorption properties of the selector special case -/

theorem selCombine_self {o2 : List (String × Value)} {nw : List Value}
    (hn : nodupKeysB o2 = true) (hnames : lookupKey o2 "names" = some (.vList nw)) :
    selCombine o2 o2 = some o2 := by
  have hhas : hasKey o2 "names" = true := by simp [hasKey, hnames]
  have hu : pyUnion nw nw = nw := pyUnion_of_subset fun v hv => hv
  simp only [selCombine, hhas, if_true, hnames, hu, setKey_of_lookup_eq hnames]
  exact congrArg some (subkeyLoop_fixed fun p hp _ => nodup_lookup hn hp)

theorem selCombine_absorb {o1 o2 oc : List (String × Value)}
    (hn2 : nodupKeysB o2 = true) (h : selCombine o1 o2 = some oc) :
    selCombine oc o2 = some oc := by
  simp only [selCombine] at h
  set o1a := if hasKey o1 "names" then o1 else setKey o1 "names" (.vList []) with ho1a
  have h1a : hasKey o1a "names" = true := by
    rw [ho1a]
    by_cases h1 : hasKey o1 "names"
    · rwa [if_pos h1]
    · rw [if_neg h1]
      simp [hasKey, lookupKey_setKey_self]
  cases hnames2 : lookupKey o2 "names" with
  | none =>
    rw [hnames2] at h
    injection h with h
    subst h
    simp [selCombine, h1a, hnames2]
  | some nv2 =>
    rw [hnames2] at h
    cases hex : lookupKey o1a "names" with
    | none => rw [hex] at h; cases nv2 <;> simp at h
    | some exv =>
      rw [hex] at h
      cases exv <;> cases nv2 <;> simp at h
      case vList.vList ex nw =>
        subst h
        have hocn : lookupKey (subkeyLoop o2 (setKey o1a "names"
            (.vList (pyUnion ex nw)))) "names" = some (.vList (pyUnion ex nw)) := by
          rw [subkeyLoop_lookup_names, lookupKey_setKey_self]
        have hhas : hasKey (subkeyLoop o2 (setKey o1a "names"
            (.vList (pyUnion ex nw)))) "names" = true := by
          simp [hasKey, hocn]
        have hu : pyUnion (pyUnion ex nw) nw = pyUnion ex nw :=
          pyUnion_of_subset fun v hv => (mem_pyUnion ex nw v).mpr (Or.inr hv)
        simp only [selCombine, hhas, if_true, hnames2, hocn, hu,
          setKey_of_lookup_eq hocn]
        exact congrArg some (subkeyLoop_fixed fun p hp hk =>
          subkeyLoop_lookup_of_mem hn2 hp hk _)

/-! ## Characterization of a merge pass, key by key -/

theorem mergeEntries_bind_split {a c : Doc} {k : String} {v : Value}
    {rest : List (String × Value)}
    (h : mergeEntries a ((k, v) :: rest) = some c) :
    ∃ a', mergeStep a k v = some a' ∧ mergeEntries a' rest = some c := by
  rw [mergeEntries_cons] at h
  exact Option.bind_eq_some.mp h

theorem hasKey_cons_false {k0 k : String} {v0 : Value}
    {rest : List (String × Value)} (h : hasKey ((k0, v0) :: rest) k = false) :
    k0 ≠ k ∧ hasKey rest k = false := by
  by_cases h0 : k0 = k <;> simp [hasKey, lookupKey, h0] at h ⊢ <;> simp [h]

theorem nodupKeysB_cons {k0 : String} {v0 : Value} {rest : List (String × Value)}
    (h : nodupKeysB ((k0, v0) :: rest) = true) :
    hasKey rest k0 = false ∧ nodupKeysB rest = true := by
  simp only [nodupKeysB, Bool.and_eq_true, Bool.not_eq_true'] at h
  exact h

theorem mergeEntries_lookup_of_not_mem {l : List (String × Value)} {a c : Doc}
    {k : String} (hk : hasKey l k = false) (h : mergeEntries a l = some c) :
    lookupKey c k = lookupKey a k := by
  induction l generalizing a with
  | nil =>
    rw [mergeEntries_nil] at h
    injection h with h
    subst h
    rfl
  | cons e rest ih =>
    obtain ⟨k0, v0⟩ := e
    obtain ⟨hne, hkrest⟩ := hasKey_cons_false hk
    obtain ⟨a', h1, h2⟩ := mergeEntries_bind_split h
    rw [mergeStep_eq] at h1
    obtain ⟨w, hw, rfl⟩ := Option.map_eq_some'.mp h1
    rw [ih hkrest h2, lookupKey_setKey_ne a w (Ne.symm hne)]

theorem mergeEntries_lookup_of_mem {l : List (String × Value)} {a c : Doc}
    (hn : nodupKeysB l = true) (h : mergeEntries a l = some c)
    {k : String} {v : Value} (hm : (k, v) ∈ l) :
    ∃ u, stepValue (lookupKey a k) k v = some u ∧ lookupKey c k = some u := by
  induction l generalizing a with
  | nil => simp at hm
  | cons e rest ih =>
    obtain ⟨k0, v0⟩ := e
    obtain ⟨hn1, hn2⟩ := nodupKeysB_cons hn
    obtain ⟨a', h1, h2⟩ := mergeEntries_bind_split h
    rw [mergeStep_eq] at h1
    obtain ⟨w, hw, rfl⟩ := Option.map_eq_some'.mp h1
    rcases List.mem_cons.mp hm with h3 | h3
    · obtain ⟨rfl, rfl⟩ := Prod.mk.injEq .. ▸ h3
      refine ⟨w, hw, ?_⟩
      rw [mergeEntries_lookup_of_not_mem hn1 h2, lookupKey_setKey_self]
    · have hne : k ≠ k0 := by
        intro hq
        subst hq
        exact absurd (mem_hasKey h3) (by simp [hn1])
      obtain ⟨u, hu1, hu2⟩ := ih hn2 h2 h3
      rw [lookupKey_setKey_ne a w hne] at hu1
      exact ⟨u, hu1, hu2⟩

theorem mergeEntries_fixed {c : Doc} {l : List (String × Value)}
    (hl : ∀ p ∈ l, ∃ u, lookupKey c p.1 = some u ∧ stepValue (some u) p.1 p.2 = some u) :
    mergeEntries c l = some c := by
  induction l with
  | nil => exact mergeEntries_nil c
  | cons e rest ih =>
    obtain ⟨k0, v0⟩ := e
    obtain ⟨u, hu1, hu2⟩ := hl (k0, v0) (by simp)
    rw [mergeEntries_cons, mergeStep_eq, hu1, hu2]
    simp only [Option.map_some', Option.some_bind, setKey_of_lookup_eq hu1]
    exact ih fun p hp => hl p (List.mem_cons_of_mem _ hp)

theorem mergeEntries_setKey_absorb {l : List (String × Value)} {c : Doc} {t : String} :
    ∀ {x : Value} {r : Doc}, nodupKeysB l = true →
    (∀ p ∈ l, p.1 ≠ t →
      ∃ u, lookupKey c p.1 = some u ∧ stepValue (some u) p.1 p.2 = some u) →
    mergeEntries (setKey c t x) l = some r → ∃ y, r = setKey c t y := by
  induction l with
  | nil =>
    intro x r _ _ h
    rw [mergeEntries_nil] at h
    injection h with h
    exact ⟨x, h.symm⟩
  | cons e rest ih =>
    intro x r hn hl h
    obtain ⟨k0, v0⟩ := e
    obtain ⟨hn1, hn2⟩ := nodupKeysB_cons hn
    obtain ⟨a', h1, h2⟩ := mergeEntries_bind_split h
    rw [mergeStep_eq] at h1
    obtain ⟨w, hw, rfl⟩ := Option.map_eq_some'.mp h1
    by_cases hk : k0 = t
    · subst hk
      rw [setKey_setKey] at h2
      exact ih hn2 (fun p hp hpt => hl p (List.mem_cons_of_mem _ hp) hpt) h2
    · obtain ⟨u, hu1, hu2⟩ := hl (k0, v0) (by simp) hk
      rw [lookupKey_setKey_ne c x hk, hu1, hu2] at hw
      injection hw with hw
      subst hw
      rw [setKey_of_lookup_eq (by rw [lookupKey_setKey_ne c x hk]; exact hu1)] at h2
      exact ih hn2 (fun p hp hpt => hl p (List.mem_cons_of_mem _ hp) hpt) h2

/-! ## Absorption: merging the same overlay a second time changes nothing -/

theorem sizeOf_snd_lt_of_mem_entries {o : List (String × Value)}
    {p : String × Value} (h : p ∈ o) : sizeOf p.2 < sizeOf (Value.vObj o) := by
  have h1 := List.sizeOf_lt_of_mem h
  have h2 : sizeOf p.2 < sizeOf p := by
    obtain ⟨a, b⟩ := p
    simp only [Prod.mk.sizeOf_spec]
    omega
  simp only [Value.vObj.sizeOf_spec]
  omega

/-- Values that are not objects, as a convenient case split. -/
theorem stepValue_some_of_not_obj {k : String} {v : Value} (u : Option Value)
    (h : ∀ o, v ≠ .vObj o) : stepValue u k v = some v := by
  cases u with
  | none => cases v <;> simp [stepValue]
  | some uv => cases uv <;> cases v <;> first
    | exact absurd rfl (h _)
    | simp [stepValue]

theorem stepValue_obj_none {k : String} {o2 : List (String × Value)}
    {u : Option Value} (h : ∀ o, u ≠ some (.vObj o)) :
    stepValue u k (.vObj o2) = some (.vObj o2) := by
  cases u with
  | none => simp [stepValue]
  | some uv => cases uv <;> first
    | exact absurd rfl (h _)
    | simp [stepValue]

theorem stepValue_obj_obj {k : String} {o1 o2 : List (String × Value)} :
    stepValue (some (.vObj o1)) k (.vObj o2) =
      if k = "namespaceSelector" then (selCombine o1 o2).map .vObj
      else (mergeEntries o1 o2).map .vObj := by
  simp [stepValue]

/-- Re-applying one merge iteration to its own overlay value is the
identity: the value a well-formed (strict) overlay entry writes over itself
is itself. -/
theorem stepValue_self {k : String} :
    ∀ (v : Value), wfV true v = true → selBindOk true k v = true →
      stepValue (some v) k v = some v
  | .vObj o, hv, hsel => by
    rw [stepValue_obj_obj]
    by_cases hk : k = "namespaceSelector"
    · subst hk
      rw [if_pos rfl]
      simp only [selBindOk, if_pos rfl] at hsel
      cases hnm : lookupKey o "names" with
      | none => rw [hnm] at hsel; simp at hsel
      | some nv =>
        rw [hnm] at hsel
        cases nv with
        | vList nw =>
          rw [selCombine_self (wfV_obj_nodup hv) hnm]
          rfl
        | vNull => simp at hsel
        | vBool b => simp at hsel
        | vInt n => simp at hsel
        | vStr s => simp at hsel
        | vObj oo => simp at hsel
    · rw [if_neg hk]
      have hm : mergeEntries o o = some o := by
        apply mergeEntries_fixed
        intro p hp
        obtain ⟨k', v'⟩ := p
        obtain ⟨hb, hw⟩ := wfEntries_mem (wfV_obj_entries hv) hp
        exact ⟨v', nodup_lookup (wfV_obj_nodup hv) hp, stepValue_self v' hw hb⟩
      rw [hm]
      rfl
  | .vNull, _, _ => by simp [stepValue]
  | .vBool b, _, _ => by simp [stepValue]
  | .vInt n, _, _ => by simp [stepValue]
  | .vStr s, _, _ => by simp [stepValue]
  | .vList l, _, _ => by simp [stepValue]
termination_by v => sizeOf v
decreasing_by
  exact sizeOf_snd_lt_of_mem_entries hp

/-- If one merge iteration of a well-formed (strict) overlay value produced
`w`, re-applying the same iteration to `w` yields `w` again. -/
theorem stepValue_absorb {k : String} :
    ∀ (v : Value) {u : Option Value} {w : Value}, wfV true v = true →
      selBindOk true k v = true → stepValue u k v = some w →
      stepValue (some w) k v = some w
  | .vObj o2, u, w, hv, hsel, h => by
    by_cases ho1 : ∃ o1, u = some (.vObj o1)
    · obtain ⟨o1, rfl⟩ := ho1
      rw [stepValue_obj_obj] at h
      by_cases hk : k = "namespaceSelector"
      · rw [if_pos hk] at h
        obtain ⟨oc, hoc, rfl⟩ := Option.map_eq_some'.mp h
        rw [stepValue_obj_obj, if_pos hk, selCombine_absorb (wfV_obj_nodup hv) hoc]
        rfl
      · rw [if_neg hk] at h
        obtain ⟨m, hm, rfl⟩ := Option.map_eq_some'.mp h
        have hm2 : mergeEntries m o2 = some m := by
          apply mergeEntries_fixed
          intro p hp
          obtain ⟨k', v'⟩ := p
          obtain ⟨u', hu1, hu2⟩ :=
            mergeEntries_lookup_of_mem (wfV_obj_nodup hv) hm hp
          obtain ⟨hb, hw⟩ := wfEntries_mem (wfV_obj_entries hv) hp
          exact ⟨u', hu2, stepValue_absorb v' hw hb hu1⟩
        rw [stepValue_obj_obj, if_neg hk, hm2]
        rfl
    · rw [stepValue_obj_none (fun o ho => ho1 ⟨o, ho⟩)] at h
      injection h with h
      subst h
      exact stepValue_self _ hv hsel
  | .vNull, u, w, hv, hsel, h => by
    rw [stepValue_some_of_not_obj u (by intro o ho; cases ho)] at h
    injection h with h
    subst h
    exact stepValue_some_of_not_obj _ (by intro o ho; cases ho)
  | .vBool b, u, w, hv, hsel, h => by
    rw [stepValue_some_of_not_obj u (by intro o ho; cases ho)] at h
    injection h with h
    subst h
    exact stepValue_some_of_not_obj _ (by intro o ho; cases ho)
  | .vInt n, u, w, hv, hsel, h => by
    rw [stepValue_some_of_not_obj u (by intro o ho; cases ho)] at h
    injection h with h
    subst h
    exact stepValue_some_of_not_obj _ (by intro o ho; cases ho)
  | .vStr s, u, w, hv, hsel, h => by
    rw [stepValue_some_of_not_obj u (by intro o ho; cases ho)] at h
    injection h with h
    subst h
    exact stepValue_some_of_not_obj _ (by intro o ho; cases ho)
  | .vList l, u, w, hv, hsel, h => by
    rw [stepValue_some_of_not_obj u (by intro o ho; cases ho)] at h
    injection h with h
    subst h
    exact stepValue_some_of_not_obj _ (by intro o ho; cases ho)
termination_by v => sizeOf v
decreasing_by
  exact sizeOf_snd_lt_of_mem_entries hp

/-- Merging the same well-formed desired document into the result of a merge
with that document changes nothing (the absorption law behind idempotent
create-or-update). -/
theorem merge_absorb {a b c : Doc} (hb : wfD true b = true)
    (h : mergeEntries a b = some c) : mergeEntries c b = some c := by
  apply mergeEntries_fixed
  intro p hp
  obtain ⟨u, hu1, hu2⟩ := mergeEntries_lookup_of_mem (wfV_obj_nodup hb) h
    (show (p.1, p.2) ∈ b by obtain ⟨x, y⟩ := p; exact hp)
  obtain ⟨hbind, hw⟩ := wfEntries_mem (wfV_obj_entries hb)
    (show (p.1, p.2) ∈ b by obtain ⟨x, y⟩ := p; exact hp)
  exact ⟨u, hu2, stepValue_absorb p.2 hw hbind hu1⟩

/-! ## Totality: on well-formed documents the merge never raises -/

theorem selBindOk_of_ne {s : Bool} {k : String} {v : Value}
    (h : k ≠ "namespaceSelector") : selBindOk s k v = true := by
  simp [selBindOk, h]

theorem selBindOk_not_obj {s : Bool} {k : String} {v : Value}
    (h : ∀ o, v ≠ .vObj o) : selBindOk s k v = true := by
  cases v <;> first
    | exact absurd rfl (h _)
    | simp [selBindOk]

theorem selBindOk_ns_obj {s : Bool} {o : List (String × Value)}
    (h : selBindOk s "namespaceSelector" (.vObj o) = true) :
    (∃ ex, lookupKey o "names" = some (.vList ex)) ∨
      (s = false ∧ lookupKey o "names" = none) := by
  simp only [selBindOk, if_pos rfl] at h
  cases hn : lookupKey o "names" with
  | none =>
    rw [hn] at h
    cases s
    · exact Or.inr ⟨rfl, rfl⟩
    · simp at h
  | some nv =>
    rw [hn] at h
    cases nv with
    | vList l => exact Or.inl ⟨l, rfl⟩
    | vNull => simp at h
    | vBool b => simp at h
    | vInt n => simp at h
    | vStr s => simp at h
    | vObj oo => simp at h

theorem wfEntries_subkeyLoop {o2 acc : List (String × Value)}
    (ha : wfEntries false acc = true)
    (h : ∀ p ∈ o2, selBindOk false p.1 p.2 = true ∧ wfV false p.2 = true) :
    wfEntries false (subkeyLoop o2 acc) = true := by
  induction o2 generalizing acc with
  | nil => exact ha
  | cons e rest ih =>
    obtain ⟨k0, v0⟩ := e
    rw [subkeyLoop_cons]
    by_cases h0 : k0 = "names"
    · rw [if_neg (by simp [h0])]
      exact ih ha fun p hp => h p (List.mem_cons_of_mem _ hp)
    · rw [if_pos h0]
      obtain ⟨hb, hv⟩ := h (k0, v0) (by simp)
      exact ih (wfEntries_setKey ha hb hv) fun p hp => h p (List.mem_cons_of_mem _ hp)

/-- On well-formed selector objects `selCombine` succeeds and produces a
well-formed selector object whose `names` entry is a present list. -/
theorem selCombine_wf {o1 o2 : List (String × Value)}
    (hw1 : wfV false (.vObj o1) = true) (hw2 : wfV false (.vObj o2) = true)
    (h1 : selBindOk false "namespaceSelector" (.vObj o1) = true)
    (h2 : selBindOk false "namespaceSelector" (.vObj o2) = true) :
    ∃ oc, selCombine o1 o2 = some oc ∧ wfV false (.vObj oc) = true ∧
      ∀ s, selBindOk s "namespaceSelector" (.vObj oc) = true := by
  have ho1a : ∃ ex, lookupKey (if hasKey o1 "names" then o1
      else setKey o1 "names" (.vList [])) "names" = some (.vList ex) := by
    rcases selBindOk_ns_obj h1 with ⟨ex, hex⟩ | ⟨_, hnone⟩
    · rw [if_pos (by simp [hasKey, hex])]
      exact ⟨ex, hex⟩
    · rw [if_neg (by simp [hasKey, hnone])]
      exact ⟨[], lookupKey_setKey_self o1 "names" (.vList [])⟩
  obtain ⟨ex, hex⟩ := ho1a
  have hwa : wfV false (.vObj (if hasKey o1 "names" then o1
      else setKey o1 "names" (.vList []))) = true := by
    by_cases hh : hasKey o1 "names"
    · rwa [if_pos hh]
    · rw [if_neg hh]
      exact wfD_setKey hw1 (selBindOk_of_ne (by decide)) rfl
  simp only [selCombine]
  cases hn2 : lookupKey o2 "names" with
  | none =>
    refine ⟨_, rfl, hwa, fun s => ?_⟩
    simp [selBindOk, hex]
  | some nv2 =>
    rcases selBindOk_ns_obj h2 with ⟨nw, hnw⟩ | ⟨_, hnone⟩
    · rw [hn2] at hnw
      injection hnw with hnw
      subst hnw
      rw [hex]
      refine ⟨_, rfl, ?_, fun s => ?_⟩
      · simp only [wfV, Bool.and_eq_true]
        constructor
        · apply nodupKeysB_subkeyLoop
          rw [nodupKeysB_setKey]
          exact wfV_obj_nodup hwa
        · apply wfEntries_subkeyLoop
          · exact wfEntries_setKey (wfV_obj_entries hwa)
              (selBindOk_of_ne (by decide)) rfl
          · intro p hp
            obtain ⟨k', v'⟩ := p
            obtain ⟨hb, hv⟩ := wfEntries_mem (wfV_obj_entries hw2) hp
            exact ⟨hb, hv⟩
      · have : lookupKey (subkeyLoop o2 (setKey (if hasKey o1 "names" then o1
            else setKey o1 "names" (.vList [])) "names"
            (.vList (pyUnion ex nw)))) "names" = some (.vList (pyUnion ex nw)) := by
          rw [subkeyLoop_lookup_names, lookupKey_setKey_self]
        simp [selBindOk, this]
    · rw [hnone] at hn2
      cases hn2

mutual

/-- One merge iteration never raises on well-formed documents, and keeps the
document well-formed. -/
theorem mergeStep_wf : ∀ (v : Value) (k : String) (a : Doc),
    wfD false a = true → selBindOk false k v = true → wfV false v = true →
    ∃ d', mergeStep a k v = some d' ∧ wfD false d' = true
  | v, k, a, ha, hb, hv => by
    rw [mergeStep_eq]
    by_cases hobj : ∃ o1 o2, lookupKey a k = some (.vObj o1) ∧ v = .vObj o2
    · obtain ⟨o1, o2, hu, rfl⟩ := hobj
      have hwo1 : wfV false (.vObj o1) = true :=
        (wfEntries_mem (wfV_obj_entries ha) (lookup_mem hu)).2
      have hbo1 : selBindOk false k (.vObj o1) = true :=
        (wfEntries_mem (wfV_obj_entries ha) (lookup_mem hu)).1
      rw [hu, stepValue_obj_obj]
      by_cases hk : k = "namespaceSelector"
      · subst hk
        rw [if_pos rfl]
        obtain ⟨oc, hoc, hocwf, hocsel⟩ := selCombine_wf hwo1 hv hbo1 hb
        rw [hoc]
        exact ⟨_, rfl, wfD_setKey ha (hocsel false) hocwf⟩
      · rw [if_neg hk]
        obtain ⟨m, hm, hmwf⟩ := mergeEntries_wf o2 o1 hwo1 (wfV_obj_entries hv)
        rw [hm]
        exact ⟨_, rfl, wfD_setKey ha (selBindOk_of_ne hk) hmwf⟩
    · have hfb : stepValue (lookupKey a k) k v = some v := by
        by_cases hv2 : ∃ o2, v = .vObj o2
        · obtain ⟨o2, rfl⟩ := hv2
          exact stepValue_obj_none fun o ho => hobj ⟨o, o2, ho, rfl⟩
        · exact stepValue_some_of_not_obj _ fun o ho => hv2 ⟨o, ho⟩
      rw [hfb]
      exact ⟨_, rfl, wfD_setKey ha hb hv⟩
termination_by v => sizeOf v

/-- The merge never raises on well-formed documents, and keeps the document
well-formed. -/
theorem mergeEntries_wf : ∀ (l : List (String × Value)) (a : Doc),
    wfD false a = true → wfEntries false l = true →
    ∃ c, mergeEntries a l = some c ∧ wfD false c = true
  | [], a, ha, _ => ⟨a, mergeEntries_nil a, ha⟩
  | (k, v) :: rest, a, ha, hl => by
    simp only [wfEntries, Bool.and_eq_true] at hl
    obtain ⟨a', h1, h2⟩ := mergeStep_wf v k a ha hl.1.1 hl.1.2
    obtain ⟨c, h3, h4⟩ := mergeEntries_wf rest a' h2 hl.2
    exact ⟨c, by rw [mergeEntries_cons, h1, Option.some_bind, h3], h4⟩
termination_by l => sizeOf l

end

/-- `recursive_merge` on well-formed documents: total and well-formed. -/
theorem recursive_merge_wf {a b : Doc} (ha : wfD false a = true)
    (hb : wfD false b = true) :
    ∃ c, recursive_merge a b = some c ∧ wfD false c = true :=
  mergeEntries_wf b a ha (wfV_obj_entries hb)

/-! ## Evolution of `namespaceSelector.names` across merges -/

theorem merge_selector_names {a o c : Doc} {sa so : List (String × Value)}
    {fn nsl : List Value}
    (hno : nodupKeysB o = true)
    (ha : lookupKey a "namespaceSelector" = some (.vObj sa))
    (han : lookupKey sa "names" = some (.vList fn))
    (ho : lookupKey o "namespaceSelector" = some (.vObj so))
    (hon : lookupKey so "names" = some (.vList nsl))
    (hm : mergeEntries a o = some c) :
    ∃ sc, lookupKey c "namespaceSelector" = some (.vObj sc) ∧
      lookupKey sc "names" = some (.vList (pyUnion fn nsl)) := by
  obtain ⟨u, hu1, hu2⟩ := mergeEntries_lookup_of_mem hno hm (lookup_mem ho)
  rw [ha, stepValue_obj_obj, if_pos rfl] at hu1
  have hhas : hasKey sa "names" = true := by simp [hasKey, han]
  simp only [selCombine, hhas, if_true, hon, han, Option.map_some',
    Option.some.injEq] at hu1
  subst hu1
  refine ⟨_, hu2, ?_⟩
  rw [subkeyLoop_lookup_names, lookupKey_setKey_self]

/-- Sequential application of `recursive_merge` for a list of overlays, as the
reconciliation passes apply it (one pass per overlay). -/
def mergeAll (base : Doc) : List Doc → Option Doc
  | [] => some base
  | o :: rest =>
    match recursive_merge base o with
    | some c => mergeAll c rest
    | none => none

theorem mergeAll_nil (base : Doc) : mergeAll base [] = some base := rfl

theorem mergeAll_cons (base o : Doc) (rest : List Doc) :
    mergeAll base (o :: rest) =
      match recursive_merge base o with
      | some c => mergeAll c rest
      | none => none := rfl

/-- The selector-name strings an overlay document contributes under
`namespaceSelector.names` (empty if the overlay has none). -/
def namesOf (o : Doc) : List Value :=
  match lookupKey o "namespaceSelector" with
  | some (.vObj so) =>
    match lookupKey so "names" with
    | some (.vList l) => l
    | _ => []
  | _ => []

/-- An overlay that contributes selector names: well-formed, with an object
`namespaceSelector` carrying a list-valued `names`. -/
def overlayOk (o : Doc) : Prop :=
  wfD false o = true ∧
    ∃ so nsl, lookupKey o "namespaceSelector" = some (.vObj so) ∧
      lookupKey so "names" = some (.vList nsl)

theorem namesOf_eq {o : Doc} {so : List (String × Value)} {nsl : List Value}
    (h1 : lookupKey o "namespaceSelector" = some (.vObj so))
    (h2 : lookupKey so "names" = some (.vList nsl)) : namesOf o = nsl := by
  simp [namesOf, h1, h2]

/-- Invariant of iterated merging: the final `names` list is duplicate-free
(when the base one is) and holds exactly the base names plus every
contributed name. -/
theorem mergeAll_names {os : List Doc} :
    ∀ {base : Doc} {sb : List (String × Value)} {bn : List Value},
    wfD false base = true →
    lookupKey base "namespaceSelector" = some (.vObj sb) →
    lookupKey sb "names" = some (.vList bn) →
    bn.Nodup →
    (∀ o ∈ os, overlayOk o) →
    ∃ c sc fn, mergeAll base os = some c ∧
      lookupKey c "namespaceSelector" = some (.vObj sc) ∧
      lookupKey sc "names" = some (.vList fn) ∧ fn.Nodup ∧
      (∀ v, v ∈ fn ↔ v ∈ bn ∨ ∃ o ∈ os, v ∈ namesOf o) := by
  induction os with
  | nil =>
    intro base sb bn hwf hsb hbn hnd _
    exact ⟨base, sb, bn, rfl, hsb, hbn, hnd, fun v => by simp⟩
  | cons o rest ih =>
    intro base sb bn hwf hsb hbn hnd hov
    obtain ⟨hwo, so, nsl, hso, hsonames⟩ := hov o (by simp)
    obtain ⟨c1, hc1, hc1wf⟩ := recursive_merge_wf hwf hwo
    obtain ⟨sc1, hsc1, hsc1names⟩ := merge_selector_names (wfV_obj_nodup hwo)
      hsb hbn hso hsonames hc1
    obtain ⟨c, sc, fn, hc, hsc, hfn, hfnnd, hmem⟩ :=
      ih hc1wf hsc1 hsc1names (pyUnion_nodup nsl hnd)
        (fun o' ho' => hov o' (List.mem_cons_of_mem _ ho'))
    refine ⟨c, sc, fn, ?_, hsc, hfn, hfnnd, ?_⟩
    · simp only [mergeAll, hc1]
      exact hc
    · intro v
      rw [hmem v, mem_pyUnion]
      constructor
      · rintro ((h | h) | ⟨o', ho', h⟩)
        · exact Or.inl h
        · exact Or.inr ⟨o, by simp, by rw [namesOf_eq hso hsonames]; exact h⟩
        · exact Or.inr ⟨o', List.mem_cons_of_mem _ ho', h⟩
      · rintro (h | ⟨o', ho', h⟩)
        · exact Or.inl (Or.inl h)
        · rcases List.mem_cons.mp ho' with rfl | ho''
          · exact Or.inl (Or.inr (by rwa [namesOf_eq hso hsonames] at h))
          · exact Or.inr ⟨o', ho'', h⟩

/-! ## The create-or-update protocols (tetrate.py) against an abstract remote -/

/-- Result of a GET for one entity, as the `get` methods classify it:
the parsed JSON document, a 404 (returned as `None`), or another HTTP error
(re-raised into the caller). -/
inductive GetResult where
  | found (d : Doc)
  | notFound
  | httpErr (status : Nat) (body : String)
  deriving Repr, DecidableEq

/-- Result of a POST/PUT: the parsed JSON response, or an HTTP error raised
by `send_request`, carrying the response status and body text. -/
inductive WriteResult where
  | ok (d : Doc)
  | httpErr (status : Nat) (body : String)
  deriving Repr, DecidableEq

/-- An abstract remote management-plane server with internal state `σ`.
Modelled from the spec: §6 specifies the remote collaborator only through
its REST interface (GET/POST/PUT on entity URLs, JSON documents carrying an
`etag`), so the server is a parameter of the embedding. -/
structure Server (σ : Type) where
  get : σ → σ × GetResult
  post : σ → Doc → σ × WriteResult
  put : σ → Doc → σ × WriteResult

/-- A request issued to the remote, recorded in the trace. -/
inductive Req where
  | rGet
  | rPost (body : Doc)
  | rPut (body : Doc)
  deriving Repr, DecidableEq

/-- Outcome of one `create_or_update` call.  `raisedTypeErr` models a Python
error escaping `recursive_merge`; `raisedMaxRetries` models
`WorkspaceSetting.create_or_update`'s "Max retries exceeded" exception. -/
inductive CoUResult where
  | ok (d : Doc)
  | raisedHTTP (status : Nat) (body : String)
  | raisedTypeErr
  | raisedMaxRetries
  deriving Repr, DecidableEq

/-- `if etag: merged_data['etag'] = etag` after `etag = existing.get('etag')`
(tetrate.py lines 187, 194-195; same at 269, 279-280 and 366, 373-374). -/
def restoreEtag (existing merged : Doc) : Doc :=
  match lookupKey existing "etag" with
  | some e => if pyTruthy e then setKey merged "etag" e else merged
  | none => merged

/-- The PUT body `Workspace.create_or_update` (lines 185-202) and
`GatewayGroup.create_or_update` (lines 364-381) build when the entity
exists: copy the retrieved document, `recursive_merge` the desired data into
it, and restore the retrieved etag when truthy. -/
def mergedPutBody (existing desired : Doc) : Option Doc :=
  (recursive_merge existing desired).map (restoreEtag existing)

/-- The PUT body `WorkspaceSetting.create_or_update` builds (lines 267-288):
like `mergedPutBody`, except that when the retrieved document has no
`settings` key the desired settings replace it wholesale. -/
def wssPutBody (existing desired : Doc) : Option Doc :=
  (if hasKey existing "settings" then recursive_merge existing desired
   else some desired).map (restoreEtag existing)

/-- `Workspace.create_or_update` (tetrate.py lines 176-219) and
`GatewayGroup.create_or_update` (lines 354-398), which differ only in the
key under which a POST wraps the desired document: GET; on 404 POST
`{'name': name, wrapKey: desired}`; otherwise PUT the merged body.  Any
HTTP error or merge error is re-raised — there is no retry.  Returns the
final server state, the outcome, and the requests issued. -/
def createOrUpdateNoRetry {σ : Type} (S : Server σ) (wrapKey name : String)
    (desired : Doc) (s : σ) : σ × CoUResult × List Req :=
  let g := S.get s
  match g.2 with
  | .found existing =>
    match mergedPutBody existing desired with
    | some body =>
      let p := S.put g.1 body
      match p.2 with
      | .ok resp => (p.1, .ok resp, [.rGet, .rPut body])
      | .httpErr st bd => (p.1, .raisedHTTP st bd, [.rGet, .rPut body])
    | none => (g.1, .raisedTypeErr, [.rGet])
  | .notFound =>
    let payload : Doc := [("name", .vStr name), (wrapKey, .vObj desired)]
    let p := S.post g.1 payload
    match p.2 with
    | .ok resp => (p.1, .ok resp, [.rGet, .rPost payload])
    | .httpErr st bd => (p.1, .raisedHTTP st bd, [.rGet, .rPost payload])
  | .httpErr st bd => (g.1, .raisedHTTP st bd, [.rGet])

/-- `Workspace.create_or_update` (tetrate.py lines 176-219). -/
def workspaceCreateOrUpdate {σ : Type} (S : Server σ) (name : String)
    (desired : Doc) (s : σ) : σ × CoUResult × List Req :=
  createOrUpdateNoRetry S "workspace" name desired s

/-- `GatewayGroup.create_or_update` (tetrate.py lines 354-398). -/
def gatewayGroupCreateOrUpdate {σ : Type} (S : Server σ) (name : String)
    (desired : Doc) (s : σ) : σ × CoUResult × List Req :=
  createOrUpdateNoRetry S "group" name desired s

/-- The conflict marker `WorkspaceSetting.create_or_update` greps for in the
response body (tetrate.py line 305). -/
def conflictMarker : String := "the resource has already been modified"

/-- `pat` starts the list (list-of-characters substring machinery for
Python's `in` on strings). -/
def startsWithL : List Char → List Char → Bool
  | [], _ => true
  | _ :: _, [] => false
  | p :: ps, c :: cs => p == c && startsWithL ps cs

/-- `pat` occurs somewhere in the list. -/
def hasSubstrL (pat : List Char) : List Char → Bool
  | [] => startsWithL pat []
  | c :: cs => startsWithL pat (c :: cs) || hasSubstrL pat cs

/-- Python's `pat in s` on strings. -/
def strContains (s pat : String) : Bool :=
  hasSubstrL pat.data s.data

/-- The retry condition of tetrate.py line 305:
`e.response.status_code == 500 and "the resource has already been modified"
in str(e.response.text)`.  Note the status comparison is with 500 exactly,
not with the whole 5xx class. -/
def isConflictRetry (status : Nat) (body : String) : Bool :=
  status == 500 && strContains body conflictMarker

/-- `WorkspaceSetting.create_or_update` (tetrate.py lines 254-309): raise
once `retry_count` reaches `max_retries`; GET; on 404 POST
`{'name': name, 'settings': desired}`; otherwise PUT the merged body; when a
raised HTTP error has status 500 and a conflict-marked body, recurse with
`retry_count + 1` (the `except` wraps the whole body, so conflict-marked
errors from the GET or POST retry as well); re-raise any other HTTP error. -/
def workspaceSettingCreateOrUpdate {σ : Type} (S : Server σ) (name : String)
    (desired : Doc) (maxRetries retryCount : Nat) (s : σ) :
    σ × CoUResult × List Req :=
  if retryCount ≥ maxRetries then (s, .raisedMaxRetries, [])
  else
    let g := S.get s
    match g.2 with
    | .found existing =>
      match wssPutBody existing desired with
      | some body =>
        let p := S.put g.1 body
        match p.2 with
        | .ok resp => (p.1, .ok resp, [.rGet, .rPut body])
        | .httpErr st bd =>
          if isConflictRetry st bd then
            let r := workspaceSettingCreateOrUpdate S name desired maxRetries
              (retryCount + 1) p.1
            (r.1, r.2.1, [.rGet, .rPut body] ++ r.2.2)
          else (p.1, .raisedHTTP st bd, [.rGet, .rPut body])
      | none => (g.1, .raisedTypeErr, [.rGet])
    | .notFound =>
      let payload : Doc := [("name", .vStr name), ("settings", .vObj desired)]
      let p := S.post g.1 payload
      match p.2 with
      | .ok resp => (p.1, .ok resp, [.rGet, .rPost payload])
      | .httpErr st bd =>
        if isConflictRetry st bd then
          let r := workspaceSettingCreateOrUpdate S name desired maxRetries
            (retryCount + 1) p.1
          (r.1, r.2.1, [.rGet, .rPost payload] ++ r.2.2)
        else (p.1, .raisedHTTP st bd, [.rGet, .rPost payload])
    | .httpErr st bd =>
      if isConflictRetry st bd then
        let r := workspaceSettingCreateOrUpdate S name desired maxRetries
          (retryCount + 1) g.1
        (r.1, r.2.1, [.rGet] ++ r.2.2)
      else (g.1, .raisedHTTP st bd, [.rGet])
termination_by maxRetries - retryCount
decreasing_by
  all_goals omega

/-- Modelled from the spec: §6's remote collaborator as a deterministic
store holding at most one document per entity.  GET returns the stored
document or 404; POST stores the member of the payload under `wrapKey` with
a server-assigned etag and echoes it; PUT stores its body unchanged and
echoes it (the "no intervening external change" setting of §8's idempotence
property: a content-identical write does not move the concurrency token). -/
def honestServer (wrapKey etag0 : String) : Server (Option Doc) where
  get s := (s, match s with | some d => .found d | none => .notFound)
  post _ body :=
    let stored := match lookupKey body wrapKey with
      | some (.vObj d) => setKey d "etag" (.vStr etag0)
      | _ => setKey [] "etag" (.vStr etag0)
    (some stored, .ok stored)
  put _ body := (some body, .ok body)

/-- Number of PUT requests in a trace. -/
def countPuts (t : List Req) : Nat :=
  t.countP fun r => match r with | .rPut _ => true | _ => false

/-- Number of GET requests in a trace. -/
def countGets (t : List Req) : Nat :=
  t.countP fun r => match r with | .rGet => true | _ => false

/-! ## Absorption of the PUT bodies: the second identical call writes back
exactly what the first call stored -/

theorem absorb_entries {a m b : Doc} (hb : wfD true b = true)
    (h : mergeEntries a b = some m) :
    ∀ p ∈ b, ∃ u, lookupKey m p.1 = some u ∧ stepValue (some u) p.1 p.2 = some u := by
  intro p hp
  obtain ⟨k', v'⟩ := p
  obtain ⟨u, hu1, hu2⟩ := mergeEntries_lookup_of_mem (wfV_obj_nodup hb) h hp
  obtain ⟨hbind, hw⟩ := wfEntries_mem (wfV_obj_entries hb) hp
  exact ⟨u, hu2, stepValue_absorb v' hw hbind hu1⟩

theorem self_entries {d : Doc} (hd : wfD true d = true) :
    ∀ p ∈ d, ∃ u, lookupKey d p.1 = some u ∧ stepValue (some u) p.1 p.2 = some u := by
  intro p hp
  obtain ⟨k', v'⟩ := p
  obtain ⟨hbind, hw⟩ := wfEntries_mem (wfV_obj_entries hd) hp
  exact ⟨v', nodup_lookup (wfV_obj_nodup hd) hp, stepValue_self v' hw hbind⟩

theorem merge_self_doc {d : Doc} (hd : wfD true d = true) :
    mergeEntries d d = some d :=
  mergeEntries_fixed (self_entries hd)

theorem mergeEntries_hasKey_mono {l : List (String × Value)} {a c : Doc}
    (h : mergeEntries a l = some c) {k : String} (hk : hasKey a k = true) :
    hasKey c k = true := by
  induction l generalizing a with
  | nil =>
    rw [mergeEntries_nil] at h
    injection h with h
    subst h
    exact hk
  | cons e rest ih =>
    obtain ⟨k0, v0⟩ := e
    obtain ⟨a', h1, h2⟩ := mergeEntries_bind_split h
    rw [mergeStep_eq] at h1
    obtain ⟨w, _, rfl⟩ := Option.map_eq_some'.mp h1
    exact ih h2 (by rw [hasKey_setKey]; simp [hk])

theorem restoreEtag_self (d : Doc) : restoreEtag d d = d := by
  cases h : lookupKey d "etag" with
  | none => simp [restoreEtag, h]
  | some w =>
    simp only [restoreEtag, h]
    split
    · exact setKey_of_lookup_eq h
    · rfl

theorem restoreEtag_truthy {existing : Doc} {v : Value}
    (he : lookupKey existing "etag" = some v) (ht : pyTruthy v = true)
    (m : Doc) : restoreEtag existing m = setKey m "etag" v := by
  simp [restoreEtag, he, ht]

theorem restoreEtag_of_not_truthy {existing : Doc}
    (he : ∀ v, lookupKey existing "etag" = some v → pyTruthy v = false)
    (m : Doc) : restoreEtag existing m = m := by
  cases h : lookupKey existing "etag" with
  | none => simp [restoreEtag, h]
  | some w => simp [restoreEtag, h, he w h]

/-- Core absorption for `Workspace`/`GatewayGroup` bodies: if a second
identical call manages to build a PUT body from the first call's stored
body, it is that stored body again. -/
theorem mergedPutBody_absorb {existing desired b1 b2 : Doc}
    (hd : wfD true desired = true)
    (h1 : mergedPutBody existing desired = some b1)
    (h2 : mergedPutBody b1 desired = some b2) : b2 = b1 := by
  simp only [mergedPutBody, recursive_merge] at h1 h2
  obtain ⟨m1, hm1, hb1⟩ := Option.map_eq_some'.mp h1
  obtain ⟨m2, hm2, hb2⟩ := Option.map_eq_some'.mp h2
  by_cases htr : ∃ v, lookupKey existing "etag" = some v ∧ pyTruthy v = true
  · obtain ⟨v, he, ht⟩ := htr
    rw [restoreEtag_truthy he ht] at hb1
    subst hb1
    rw [hm2] at h2
    obtain ⟨y, hy⟩ := mergeEntries_setKey_absorb (wfV_obj_nodup hd)
      (fun p hp _ => absorb_entries hd hm1 p hp) hm2
    subst hy
    subst hb2
    rw [restoreEtag_truthy (lookupKey_setKey_self m1 "etag" v) (by exact ht),
      setKey_setKey]
  · have hnt : ∀ v, lookupKey existing "etag" = some v → pyTruthy v = false := by
      intro v hv
      by_contra hc
      exact htr ⟨v, hv, by simpa using hc⟩
    rw [restoreEtag_of_not_truthy hnt] at hb1
    subst hb1
    have hma := merge_absorb hd hm1
    rw [hm2] at hma
    injection hma with hma
    subst hma
    subst hb2
    exact restoreEtag_self _

/-- Absorption for a freshly created (POST-stored) document: the body a
second call builds over `desired + server etag` is exactly that stored
document. -/
theorem mergedPutBody_post_stored {desired b2 : Doc} {e : String}
    (hd : wfD true desired = true) (he : e ≠ "")
    (h2 : mergedPutBody (setKey desired "etag" (.vStr e)) desired = some b2) :
    b2 = setKey desired "etag" (.vStr e) := by
  simp only [mergedPutBody, recursive_merge] at h2
  obtain ⟨m2, hm2, hb2⟩ := Option.map_eq_some'.mp h2
  obtain ⟨y, hy⟩ := mergeEntries_setKey_absorb (wfV_obj_nodup hd)
    (fun p hp _ => self_entries hd p hp) hm2
  subst hy
  subst hb2
  rw [restoreEtag_truthy (lookupKey_setKey_self desired "etag" (.vStr e))
    (by simpa [pyTruthy] using he), setKey_setKey]

theorem hasKey_restoreEtag (existing m : Doc) (k : String) (hk : k ≠ "etag") :
    hasKey (restoreEtag existing m) k = hasKey m k := by
  cases h : lookupKey existing "etag" with
  | none => simp [restoreEtag, h]
  | some w =>
    simp only [restoreEtag, h]
    split
    · rw [hasKey_setKey]
      simp [hk]
    · rfl

/-- Absorption for `WorkspaceSetting` bodies. -/
theorem wssPutBody_absorb {existing desired b1 b2 : Doc}
    (hd : wfD true desired = true)
    (h1 : wssPutBody existing desired = some b1)
    (h2 : wssPutBody b1 desired = some b2) : b2 = b1 := by
  by_cases hs : hasKey existing "settings"
  · rw [wssPutBody, if_pos hs] at h1
    have hb1s : hasKey b1 "settings" = true := by
      obtain ⟨m1, hm1, hb1⟩ := Option.map_eq_some'.mp h1
      subst hb1
      rw [hasKey_restoreEtag _ _ _ (by decide)]
      exact mergeEntries_hasKey_mono hm1 hs
    rw [wssPutBody, if_pos hb1s] at h2
    exact mergedPutBody_absorb hd h1 h2
  · rw [wssPutBody, if_neg hs] at h1
    simp only [Option.map_some', Option.some.injEq] at h1
    subst h1
    by_cases htr : ∃ v, lookupKey existing "etag" = some v ∧ pyTruthy v = true
    · obtain ⟨v, he, ht⟩ := htr
      rw [restoreEtag_truthy he ht] at h2 ⊢
      by_cases hds : hasKey desired "settings"
      · have : hasKey (setKey desired "etag" v) "settings" = true := by
          rw [hasKey_setKey]
          simp [hds]
        rw [wssPutBody, if_pos this, recursive_merge] at h2
        obtain ⟨m2, hm2, hb2⟩ := Option.map_eq_some'.mp h2
        obtain ⟨y, hy⟩ := mergeEntries_setKey_absorb (wfV_obj_nodup hd)
          (fun p hp _ => self_entries hd p hp) hm2
        subst hy
        subst hb2
        rw [restoreEtag_truthy (lookupKey_setKey_self desired "etag" v) ht,
          setKey_setKey]
      · have : hasKey (setKey desired "etag" v) "settings" = false := by
          rw [hasKey_setKey]
          simpa using hds
        rw [wssPutBody, if_neg (by simp [this])] at h2
        simp only [Option.map_some', Option.some.injEq] at h2
        subst h2
        rw [restoreEtag_truthy (lookupKey_setKey_self desired "etag" v) ht]
    · have hnt : ∀ v, lookupKey existing "etag" = some v → pyTruthy v = false := by
        intro v hv
        by_contra hc
        exact htr ⟨v, hv, by simpa using hc⟩
      rw [restoreEtag_of_not_truthy hnt] at h2 ⊢
      by_cases hds : hasKey desired "settings"
      · rw [wssPutBody, if_pos hds, recursive_merge] at h2
        obtain ⟨m2, hm2, hb2⟩ := Option.map_eq_some'.mp h2
        rw [merge_self_doc hd] at hm2
        injection hm2 with hm2
        subst hm2
        subst hb2
        exact restoreEtag_self desired
      · rw [wssPutBody, if_neg hds] at h2
        simp only [Option.map_some', Option.some.injEq] at h2
        subst h2
        exact restoreEtag_self desired

/-- `WorkspaceSetting` variant of `mergedPutBody_post_stored`. -/
theorem wssPutBody_post_stored {desired b2 : Doc} {e : String}
    (hd : wfD true desired = true) (he : e ≠ "")
    (h2 : wssPutBody (setKey desired "etag" (.vStr e)) desired = some b2) :
    b2 = setKey desired "etag" (.vStr e) := by
  by_cases hds : hasKey desired "settings"
  · have : hasKey (setKey desired "etag" (.vStr e)) "settings" = true := by
      rw [hasKey_setKey]
      simp [hds]
    rw [wssPutBody, if_pos this] at h2
    exact mergedPutBody_post_stored hd he h2
  · have : hasKey (setKey desired "etag" (.vStr e)) "settings" = false := by
      rw [hasKey_setKey]
      simpa using hds
    rw [wssPutBody, if_neg (by simp [this])] at h2
    simp only [Option.map_some', Option.some.injEq] at h2
    subst h2
    rw [restoreEtag_truthy (lookupKey_setKey_self desired "etag" (.vStr e))
      (by simpa [pyTruthy] using he)]

/-! ## Idempotence of the create-or-update calls against the honest store -/

theorem lookup_wrap_payload {wrapKey name : String} {desired : Doc}
    (hwrap : wrapKey ≠ "name") :
    lookupKey [("name", .vStr name), (wrapKey, .vObj desired)] wrapKey =
      some (.vObj desired) := by
  simp [lookupKey, Ne.symm hwrap]

theorem noretry_idem {wrapKey name etag0 : String} {desired : Doc}
    (s0 : Option Doc) (hwrap : wrapKey ≠ "name")
    (hd : wfD true desired = true) (he : etag0 ≠ "") :
    (createOrUpdateNoRetry (honestServer wrapKey etag0) wrapKey name desired
        (createOrUpdateNoRetry (honestServer wrapKey etag0) wrapKey name
          desired s0).1).1 =
      (createOrUpdateNoRetry (honestServer wrapKey etag0) wrapKey name desired
        s0).1 ∧
    ∀ b, Req.rPost b ∉
      (createOrUpdateNoRetry (honestServer wrapKey etag0) wrapKey name desired
        (createOrUpdateNoRetry (honestServer wrapKey etag0) wrapKey name
          desired s0).1).2.2 := by
  cases s0 with
  | none =>
    have hstep1 : (createOrUpdateNoRetry (honestServer wrapKey etag0) wrapKey
        name desired none).1 = some (setKey desired "etag" (.vStr etag0)) := by
      simp [createOrUpdateNoRetry, honestServer, lookup_wrap_payload hwrap]
    rw [hstep1]
    cases hb : mergedPutBody (setKey desired "etag" (.vStr etag0)) desired with
    | none =>
      simp [createOrUpdateNoRetry, honestServer, hb, Req]
    | some b2 =>
      have := mergedPutBody_post_stored hd he hb
      subst this
      simp [createOrUpdateNoRetry, honestServer, hb, Req]
  | some d0 =>
    cases hb1 : mergedPutBody d0 desired with
    | none =>
      have hstep1 : (createOrUpdateNoRetry (honestServer wrapKey etag0) wrapKey
          name desired (some d0)).1 = some d0 := by
        simp [createOrUpdateNoRetry, honestServer, hb1]
      rw [hstep1]
      simp [createOrUpdateNoRetry, honestServer, hb1, Req]
    | some b1 =>
      have hstep1 : (createOrUpdateNoRetry (honestServer wrapKey etag0) wrapKey
          name desired (some d0)).1 = some b1 := by
        simp [createOrUpdateNoRetry, honestServer, hb1]
      rw [hstep1]
      cases hb2 : mergedPutBody b1 desired with
      | none =>
        simp [createOrUpdateNoRetry, honestServer, hb2, Req]
      | some b2 =>
        have := mergedPutBody_absorb hd hb1 hb2
        subst this
        simp [createOrUpdateNoRetry, honestServer, hb2, Req]

theorem wss_idem {name etag0 : String} {desired : Doc} (s0 : Option Doc)
    (hd : wfD true desired = true) (he : etag0 ≠ "") :
    (workspaceSettingCreateOrUpdate (honestServer "settings" etag0) name desired
        3 0 (workspaceSettingCreateOrUpdate (honestServer "settings" etag0)
          name desired 3 0 s0).1).1 =
      (workspaceSettingCreateOrUpdate (honestServer "settings" etag0) name
        desired 3 0 s0).1 ∧
    ∀ b, Req.rPost b ∉
      (workspaceSettingCreateOrUpdate (honestServer "settings" etag0) name
        desired 3 0 (workspaceSettingCreateOrUpdate
          (honestServer "settings" etag0) name desired 3 0 s0).1).2.2 := by
  cases s0 with
  | none =>
    have hstep1 : (workspaceSettingCreateOrUpdate (honestServer "settings" etag0)
        name desired 3 0 none).1 = some (setKey desired "etag" (.vStr etag0)) := by
      rw [workspaceSettingCreateOrUpdate]
      simp [honestServer, lookup_wrap_payload (by decide : ("settings" : String) ≠ "name")]
    rw [hstep1]
    cases hb : wssPutBody (setKey desired "etag" (.vStr etag0)) desired with
    | none =>
      rw [workspaceSettingCreateOrUpdate]
      simp [honestServer, hb, Req]
    | some b2 =>
      have := wssPutBody_post_stored hd he hb
      subst this
      rw [workspaceSettingCreateOrUpdate]
      simp [honestServer, hb, Req]
  | some d0 =>
    cases hb1 : wssPutBody d0 desired with
    | none =>
      have hstep1 : (workspaceSettingCreateOrUpdate (honestServer "settings" etag0)
          name desired 3 0 (some d0)).1 = some d0 := by
        rw [workspaceSettingCreateOrUpdate]
        simp [honestServer, hb1]
      rw [hstep1]
      rw [workspaceSettingCreateOrUpdate]
      simp [honestServer, hb1, Req]
    | some b1 =>
      have hstep1 : (workspaceSettingCreateOrUpdate (honestServer "settings" etag0)
          name desired 3 0 (some d0)).1 = some b1 := by
        rw [workspaceSettingCreateOrUpdate]
        simp [honestServer, hb1]
      rw [hstep1]
      cases hb2 : wssPutBody b1 desired with
      | none =>
        rw [workspaceSettingCreateOrUpdate]
        simp [honestServer, hb2, Req]
      | some b2 =>
        have := wssPutBody_absorb hd hb1 hb2
        subst this
        rw [workspaceSettingCreateOrUpdate]
        simp [honestServer, hb2, Req]

/-- C2 (amended): for each entity kind implemented in tetrate.py (Workspace,
WorkspaceSetting, GatewayGroup), calling `create_or_update` twice with
identical desired state against the deterministic remote store and no
intervening external change yields byte-identical stored remote state after
the second call, and the second call issues no POST (no duplicate entity) —
provided the desired document is well-formed in the strict sense: every
`namespaceSelector` object in it carries a list-valued `names` entry (as
every desired document the agent builds does), object keys are distinct, and
the server-assigned etag is non-empty.  The unamended claim is refuted by
`C2_counterexample`: a desired document whose `namespaceSelector` object
lacks `names` makes the second call insert `names: []` and rewrite the
stored document. -/
theorem C2_create_or_update_idempotent (name etag0 : String) (desired : Doc)
    (s0 : Option Doc) (hd : wfD true desired = true) (he : etag0 ≠ "") :
    ((workspaceCreateOrUpdate (honestServer "workspace" etag0) name desired
        (workspaceCreateOrUpdate (honestServer "workspace" etag0) name desired
          s0).1).1 =
      (workspaceCreateOrUpdate (honestServer "workspace" etag0) name desired
        s0).1 ∧
      ∀ b, Req.rPost b ∉
        (workspaceCreateOrUpdate (honestServer "workspace" etag0) name desired
          (workspaceCreateOrUpdate (honestServer "workspace" etag0) name
            desired s0).1).2.2) ∧
    ((workspaceSettingCreateOrUpdate (honestServer "settings" etag0) name
        desired 3 0 (workspaceSettingCreateOrUpdate
          (honestServer "settings" etag0) name desired 3 0 s0).1).1 =
      (workspaceSettingCreateOrUpdate (honestServer "settings" etag0) name
        desired 3 0 s0).1 ∧
      ∀ b, Req.rPost b ∉
        (workspaceSettingCreateOrUpdate (honestServer "settings" etag0) name
          desired 3 0 (workspaceSettingCreateOrUpdate
            (honestServer "settings" etag0) name desired 3 0 s0).1).2.2) ∧
    ((gatewayGroupCreateOrUpdate (honestServer "group" etag0) name desired
        (gatewayGroupCreateOrUpdate (honestServer "group" etag0) name desired
          s0).1).1 =
      (gatewayGroupCreateOrUpdate (honestServer "group" etag0) name desired
        s0).1 ∧
      ∀ b, Req.rPost b ∉
        (gatewayGroupCreateOrUpdate (honestServer "group" etag0) name desired
          (gatewayGroupCreateOrUpdate (honestServer "group" etag0) name
            desired s0).1).2.2) := by
  refine ⟨?_, ?_, ?_⟩
  · exact noretry_idem s0 (by decide) hd he
  · exact wss_idem s0 hd he
  · exact noretry_idem s0 (by decide) hd he

/-- C2 witness: the amended theorem applied at the agent's own kind of
desired document, starting from an absent entity. -/
theorem C2_create_or_update_idempotent_witness :
    wfD true [("namespaceSelector", .vObj [("names", .vList [.vStr "c/ns"])]),
      ("description", .vStr "w")] = true ∧
    ("e1" : String) ≠ "" ∧
    ((workspaceCreateOrUpdate (honestServer "workspace" "e1") "ns"
        [("namespaceSelector", .vObj [("names", .vList [.vStr "c/ns"])]),
          ("description", .vStr "w")]
        (workspaceCreateOrUpdate (honestServer "workspace" "e1") "ns"
          [("namespaceSelector", .vObj [("names", .vList [.vStr "c/ns"])]),
            ("description", .vStr "w")] none).1).1 =
      (workspaceCreateOrUpdate (honestServer "workspace" "e1") "ns"
        [("namespaceSelector", .vObj [("names", .vList [.vStr "c/ns"])]),
          ("description", .vStr "w")] none).1 ∧
      ∀ b, Req.rPost b ∉
        (workspaceCreateOrUpdate (honestServer "workspace" "e1") "ns"
          [("namespaceSelector", .vObj [("names", .vList [.vStr "c/ns"])]),
            ("description", .vStr "w")]
          (workspaceCreateOrUpdate (honestServer "workspace" "e1") "ns"
            [("namespaceSelector", .vObj [("names", .vList [.vStr "c/ns"])]),
              ("description", .vStr "w")] none).1).2.2) :=
  ⟨by decide, by decide,
    (C2_create_or_update_idempotent "ns" "e1"
      [("namespaceSelector", .vObj [("names", .vList [.vStr "c/ns"])]),
        ("description", .vStr "w")] none (by decide) (by decide)).1⟩

/-- C2 counterexample to the unamended claim: with the entity present as
`{"etag": "1"}` and desired state `{"namespaceSelector": {}}`, the second
identical `Workspace.create_or_update` call stores a different document than
the first (the merge's ensure-names step adds `names: []` on the second
pass), so the remote state is not byte-identical after the second call. -/
theorem C2_counterexample :
    (workspaceCreateOrUpdate (honestServer "workspace" "2") "w"
        [("namespaceSelector", .vObj [])]
        (workspaceCreateOrUpdate (honestServer "workspace" "2") "w"
          [("namespaceSelector", .vObj [])] (some [("etag", .vStr "1")])).1).1 ≠
    (workspaceCreateOrUpdate (honestServer "workspace" "2") "w"
        [("namespaceSelector", .vObj [])] (some [("etag", .vStr "1")])).1 := by
  simp [workspaceCreateOrUpdate, createOrUpdateNoRetry, honestServer, mergedPutBody,
    restoreEtag, recursive_merge, mergeEntries, mergeStep, selCombine, subkeyLoop,
    pyUnion, lookupKey, setKey, hasKey, pyTruthy]

/-- C1 (amended): for every well-formed base document whose
`namespaceSelector.names` list is duplicate-free, and every sequence of
overlay merges each contributing selector-name strings under
`namespaceSelector.names`, the final names list contains every contributed
string exactly once and retains every entry present in the base but absent
from the overlays.  The sequence of overlays is universally quantified, so
the property holds regardless of the order in which the merges are applied.
The unamended claim (arbitrary base) is refuted by `C1_counterexample`: a
base whose names list already contains a duplicate of a contributed string
keeps both copies. -/
theorem C1_selector_union (base : Doc) (os : List Doc)
    (sb : List (String × Value)) (bn : List Value)
    (hwf : wfD false base = true)
    (hsb : lookupKey base "namespaceSelector" = some (.vObj sb))
    (hbn : lookupKey sb "names" = some (.vList bn))
    (hnd : bn.Nodup)
    (hov : ∀ o ∈ os, overlayOk o)
    (hdist : ((os.map namesOf).join).Nodup) :
    ∃ c sc fn, mergeAll base os = some c ∧
      lookupKey c "namespaceSelector" = some (.vObj sc) ∧
      lookupKey sc "names" = some (.vList fn) ∧
      (∀ v ∈ (os.map namesOf).join, fn.count v = 1) ∧
      (∀ v ∈ bn, v ∉ (os.map namesOf).join → v ∈ fn) := by
  obtain ⟨c, sc, fn, hc, hsc, hfn, hfnnd, hmem⟩ := mergeAll_names hwf hsb hbn hnd hov
  refine ⟨c, sc, fn, hc, hsc, hfn, ?_, ?_⟩
  · intro v hv
    apply List.count_eq_one_of_mem hfnnd
    rw [hmem]
    right
    obtain ⟨l, hl, hvl⟩ := List.mem_join.mp hv
    obtain ⟨o, ho, rfl⟩ := List.mem_map.mp hl
    exact ⟨o, ho, hvl⟩
  · intro v hv _
    rw [hmem]
    exact Or.inl hv

/-- C1 witness: two overlays contributing `x` and `y` over a base
contributing `b1`. -/
theorem C1_selector_union_witness :
    wfD false [("namespaceSelector", .vObj [("names", .vList [.vStr "b1"])])] = true ∧
    (∀ o ∈ [[("namespaceSelector", .vObj [("names", .vList [.vStr "x"])])],
        [("namespaceSelector", .vObj [("names", .vList [.vStr "y"])])]], overlayOk o) ∧
    (∃ c sc fn,
      mergeAll [("namespaceSelector", .vObj [("names", .vList [.vStr "b1"])])]
        [[("namespaceSelector", .vObj [("names", .vList [.vStr "x"])])],
          [("namespaceSelector", .vObj [("names", .vList [.vStr "y"])])]] = some c ∧
      lookupKey c "namespaceSelector" = some (.vObj sc) ∧
      lookupKey sc "names" = some (.vList fn) ∧
      (∀ v ∈ (([[("namespaceSelector", .vObj [("names", .vList [.vStr "x"])])],
          [("namespaceSelector", .vObj [("names", .vList [.vStr "y"])])]].map
            namesOf).join), fn.count v = 1) ∧
      (∀ v ∈ [Value.vStr "b1"],
        v ∉ (([[("namespaceSelector", .vObj [("names", .vList [.vStr "x"])])],
          [("namespaceSelector", .vObj [("names", .vList [.vStr "y"])])]].map
            namesOf).join) → v ∈ fn)) := by
  have hov : ∀ o ∈ [[("namespaceSelector", .vObj [("names", .vList [.vStr "x"])])],
      [("namespaceSelector", .vObj [("names", .vList [.vStr "y"])])]], overlayOk o := by
    intro o ho
    rcases List.mem_cons.mp ho with rfl | ho
    · exact ⟨by decide, _, _, rfl, rfl⟩
    rcases List.mem_cons.mp ho with rfl | ho
    · exact ⟨by decide, _, _, rfl, rfl⟩
    · simp at ho
  refine ⟨by decide, hov, ?_⟩
  exact C1_selector_union _ _ _ _ (by decide) rfl rfl (by decide) hov (by decide)

/-- C1 counterexample to the unamended claim: the base's names list
`["a", "a"]` already duplicates the contributed string `"a"`; after the
merge the final list still contains `"a"` twice, not exactly once. -/
theorem C1_counterexample :
    mergeAll [("namespaceSelector", .vObj [("names", .vList [.vStr "a", .vStr "a"])])]
        [[("namespaceSelector", .vObj [("names", .vList [.vStr "a"])])]] =
      some [("namespaceSelector", .vObj [("names", .vList [.vStr "a", .vStr "a"])])] ∧
    namesOf [("namespaceSelector", .vObj [("names", .vList [.vStr "a"])])] =
      [.vStr "a"] ∧
    [Value.vStr "a", .vStr "a"].count (.vStr "a") = 2 := by
  refine ⟨?_, by decide, by decide⟩
  have h1 : recursive_merge
      [("namespaceSelector", .vObj [("names", .vList [.vStr "a", .vStr "a"])])]
      [("namespaceSelector", .vObj [("names", .vList [.vStr "a"])])] =
      some [("namespaceSelector",
        .vObj [("names", .vList [.vStr "a", .vStr "a"])])] := by
    simp [recursive_merge, mergeEntries, mergeStep, selCombine,
      subkeyLoop, pyUnion, lookupKey, setKey, hasKey]
  rw [mergeAll_cons, h1]
  rfl

/-! ## Etag preservation in the PUT bodies -/

theorem mergedPutBody_keeps_etag {existing desired body : Doc} {v : Value}
    (he : lookupKey existing "etag" = some v) (ht : pyTruthy v = true)
    (h : mergedPutBody existing desired = some body) :
    lookupKey body "etag" = some v := by
  obtain ⟨m, _, hb⟩ := Option.map_eq_some'.mp h
  subst hb
  rw [restoreEtag_truthy he ht, lookupKey_setKey_self]

theorem wssPutBody_keeps_etag {existing desired body : Doc} {v : Value}
    (he : lookupKey existing "etag" = some v) (ht : pyTruthy v = true)
    (h : wssPutBody existing desired = some body) :
    lookupKey body "etag" = some v := by
  obtain ⟨m, _, hb⟩ := Option.map_eq_some'.mp h
  subst hb
  rw [restoreEtag_truthy he ht, lookupKey_setKey_self]

/-- In `Workspace`/`GatewayGroup.create_or_update`, whenever a PUT follows
the GET, its body is exactly `mergedPutBody` of the retrieved document. -/
theorem noretry_put_is_merged_body {σ : Type} (S : Server σ)
    (wrapKey name : String) (desired existing : Doc) (s : σ)
    (hget : (S.get s).2 = .found existing) :
    ∀ body rest, (createOrUpdateNoRetry S wrapKey name desired s).2.2 =
        .rGet :: .rPut body :: rest →
      mergedPutBody existing desired = some body := by
  intro body rest h
  simp only [createOrUpdateNoRetry, hget] at h
  cases hb : mergedPutBody existing desired with
  | none =>
    simp only [hb] at h
    simp at h
  | some b =>
    simp only [hb] at h
    cases hp : (S.put (S.get s).1 b).2 with
    | ok resp =>
      simp only [hp] at h
      simp only [List.cons.injEq, and_true, Req.rPut.injEq, true_and] at h
      rw [h.1]
    | httpErr st bd =>
      simp only [hp] at h
      simp only [List.cons.injEq, and_true, Req.rPut.injEq, true_and] at h
      rw [h.1]

/-- In `WorkspaceSetting.create_or_update`, whenever a PUT directly follows
the first GET, its body is exactly `wssPutBody` of the retrieved document. -/
theorem wss_put_is_body {σ : Type} (S : Server σ) (name : String)
    (desired existing : Doc) (s : σ)
    (hget : (S.get s).2 = .found existing) :
    ∀ body rest, (workspaceSettingCreateOrUpdate S name desired 3 0 s).2.2 =
        .rGet :: .rPut body :: rest →
      wssPutBody existing desired = some body := by
  intro body rest h
  rw [workspaceSettingCreateOrUpdate, if_neg (by omega)] at h
  simp only [hget] at h
  cases hb : wssPutBody existing desired with
  | none =>
    simp only [hb] at h
    simp at h
  | some b =>
    simp only [hb] at h
    cases hp : (S.put (S.get s).1 b).2 with
    | ok resp =>
      simp only [hp] at h
      simp only [List.cons.injEq, and_true, Req.rPut.injEq, true_and] at h
      rw [h.1]
    | httpErr st bd =>
      simp only [hp] at h
      by_cases hc : isConflictRetry st bd = true
      · rw [if_pos hc] at h
        simp only [List.cons_append, List.nil_append, List.cons.injEq,
          Req.rPut.injEq, true_and] at h
        rw [h.1]
      · rw [if_neg hc] at h
        simp only [List.cons.injEq, and_true, Req.rPut.injEq, true_and] at h
        rw [h.1]

/-- C6 (amended): for every `create_or_update` call of any of the three
kinds that finds the entity already present with a truthy (non-empty) etag,
any PUT issued directly after that GET carries an `etag` field equal to the
etag of the GET response, regardless of any etag appearing in the desired
overlay or introduced by the merge.  The unamended claim (any etag value in
the retrieved document) is refuted by `C6_counterexample`: when the
retrieved etag is the falsy empty string, the `if etag:` restore is skipped
and the desired overlay's etag wins. -/
theorem C6_put_carries_get_etag {σ : Type} (S : Server σ) (s : σ)
    (name : String) (desired existing : Doc) (e : String)
    (hget : (S.get s).2 = .found existing)
    (hetag : lookupKey existing "etag" = some (.vStr e)) (hne : e ≠ "") :
    (∀ body rest, (workspaceCreateOrUpdate S name desired s).2.2 =
        .rGet :: .rPut body :: rest →
      lookupKey body "etag" = some (.vStr e)) ∧
    (∀ body rest, (gatewayGroupCreateOrUpdate S name desired s).2.2 =
        .rGet :: .rPut body :: rest →
      lookupKey body "etag" = some (.vStr e)) ∧
    (∀ body rest, (workspaceSettingCreateOrUpdate S name desired 3 0 s).2.2 =
        .rGet :: .rPut body :: rest →
      lookupKey body "etag" = some (.vStr e)) := by
  have htr : pyTruthy (Value.vStr e) = true := by simpa [pyTruthy] using hne
  refine ⟨fun body rest h => ?_, fun body rest h => ?_, fun body rest h => ?_⟩
  · exact mergedPutBody_keeps_etag hetag htr
      (noretry_put_is_merged_body S "workspace" name desired existing s hget
        body rest h)
  · exact mergedPutBody_keeps_etag hetag htr
      (noretry_put_is_merged_body S "group" name desired existing s hget
        body rest h)
  · exact wssPutBody_keeps_etag hetag htr
      (wss_put_is_body S name desired existing s hget body rest h)

/-- C6 witness: honest store holding a document with etag `"g1"`, desired
overlay trying to smuggle etag `"bad"`. -/
theorem C6_put_carries_get_etag_witness :
    ((honestServer "workspace" "e0").get
        (some [("etag", .vStr "g1"), ("a", .vInt 1)])).2 =
      .found [("etag", .vStr "g1"), ("a", .vInt 1)] ∧
    lookupKey [("etag", .vStr "g1"), ("a", .vInt 1)] "etag" =
      some (.vStr "g1") ∧
    ("g1" : String) ≠ "" ∧
    (∀ body rest,
      (workspaceCreateOrUpdate (honestServer "workspace" "e0") "w"
          [("etag", .vStr "bad")]
          (some [("etag", .vStr "g1"), ("a", .vInt 1)])).2.2 =
        .rGet :: .rPut body :: rest →
      lookupKey body "etag" = some (.vStr "g1")) :=
  ⟨rfl, by decide, by decide,
    (C6_put_carries_get_etag (honestServer "workspace" "e0")
      (some [("etag", .vStr "g1"), ("a", .vInt 1)]) "w"
      [("etag", .vStr "bad")] [("etag", .vStr "g1"), ("a", .vInt 1)] "g1"
      rfl (by decide) (by decide)).1⟩

/-- C6 counterexample to the unamended claim: the retrieved document
contains an etag field (the empty string); the PUT body carries the
overlay's etag `"x"`, not the retrieved one. -/
theorem C6_counterexample :
    (workspaceCreateOrUpdate (honestServer "workspace" "e0") "w"
        [("etag", .vStr "x")] (some [("etag", .vStr "")])).2.2 =
      [.rGet, .rPut [("etag", .vStr "x")]] ∧
    lookupKey [("etag", .vStr "")] "etag" = some (.vStr "") ∧
    lookupKey [("etag", .vStr "x")] "etag" = some (.vStr "x") ∧
    Value.vStr "x" ≠ .vStr "" := by
  refine ⟨?_, by decide, by decide, by decide⟩
  simp [workspaceCreateOrUpdate, createOrUpdateNoRetry, honestServer,
    mergedPutBody, restoreEtag, recursive_merge, mergeEntries, mergeStep,
    lookupKey, setKey, hasKey, pyTruthy]

/-! ## Conflict behaviour and the retry ceiling -/

/-- A remote whose every write fails with the given status and body (the
entity itself is always readable); the state counts the failed writes. -/
def conflictServer (d0 : Doc) (status : Nat) (body : String) : Server Nat where
  get s := (s, .found d0)
  post s _ := (s + 1, .httpErr status body)
  put s _ := (s + 1, .httpErr status body)

/-- Under a server whose every PUT fails with a conflict-marked 500, the
`WorkspaceSetting` retry loop makes exactly `maxRetries - retryCount` PUT
attempts (and as many GETs) and terminates with the max-retries error. -/
theorem wss_all_conflict {σ : Type} (S : Server σ) (name : String)
    (desired : Doc)
    (hget : ∀ s, ∃ d, (S.get s).2 = .found d ∧
      (wssPutBody d desired).isSome = true)
    (hput : ∀ s b, ∃ bd, (S.put s b).2 = .httpErr 500 bd ∧
      strContains bd conflictMarker = true) :
    ∀ (mr rc : Nat) (s : σ),
      (workspaceSettingCreateOrUpdate S name desired mr rc s).2.1 =
        .raisedMaxRetries ∧
      countPuts (workspaceSettingCreateOrUpdate S name desired mr rc s).2.2 =
        mr - rc ∧
      countGets (workspaceSettingCreateOrUpdate S name desired mr rc s).2.2 =
        mr - rc
  | mr, rc, s => by
    by_cases hguard : rc ≥ mr
    · rw [workspaceSettingCreateOrUpdate, if_pos hguard]
      refine ⟨rfl, ?_, ?_⟩ <;> simp [countPuts, countGets] <;> omega
    · obtain ⟨d, hd1, hd2⟩ := hget s
      obtain ⟨b, hb⟩ := Option.isSome_iff_exists.mp hd2
      obtain ⟨bd, hp1, hp2⟩ := hput (S.get s).1 b
      have hconf : isConflictRetry 500 bd = true := by
        simp [isConflictRetry, hp2]
      have ih := wss_all_conflict S name desired hget hput mr (rc + 1)
        (S.put (S.get s).1 b).1
      rw [workspaceSettingCreateOrUpdate, if_neg hguard]
      simp only [hd1, hb, hp1, hconf, if_true]
      refine ⟨ih.1, ?_, ?_⟩
      · simp [countPuts, List.cons_append, List.nil_append,
          List.countP_cons] at ih ⊢
        omega
      · simp [countGets, List.cons_append, List.nil_append,
          List.countP_cons] at ih ⊢
        omega
termination_by mr rc s => mr - rc
decreasing_by
  omega

/-- C4: if every PUT attempt fails with a conflict-marked 500 response (and
the entity stays readable), `WorkspaceSetting.create_or_update` with
`max_retries = 3` makes exactly 3 PUT attempts and then terminates by
raising the max-retries error — the retry loop never runs unboundedly. -/
theorem C4_bounded_retry {σ : Type} (S : Server σ) (name : String)
    (desired : Doc) (s : σ)
    (hget : ∀ s', ∃ d, (S.get s').2 = .found d ∧
      (wssPutBody d desired).isSome = true)
    (hput : ∀ s' b, ∃ bd, (S.put s' b).2 = .httpErr 500 bd ∧
      strContains bd conflictMarker = true) :
    (workspaceSettingCreateOrUpdate S name desired 3 0 s).2.1 =
      .raisedMaxRetries ∧
    countPuts (workspaceSettingCreateOrUpdate S name desired 3 0 s).2.2 = 3 := by
  obtain ⟨h1, h2, _⟩ := wss_all_conflict S name desired hget hput 3 0 s
  exact ⟨h1, h2⟩

/-- C4 witness: the always-conflicting server. -/
theorem C4_bounded_retry_witness :
    (∀ s', ∃ d, ((conflictServer [] 500 conflictMarker).get s').2 = .found d ∧
      (wssPutBody d [("a", .vInt 1)]).isSome = true) ∧
    (∀ s' b, ∃ bd,
      ((conflictServer [] 500 conflictMarker).put s' b).2 = .httpErr 500 bd ∧
      strContains bd conflictMarker = true) ∧
    ((workspaceSettingCreateOrUpdate (conflictServer [] 500 conflictMarker)
        "default" [("a", .vInt 1)] 3 0 0).2.1 = .raisedMaxRetries ∧
      countPuts (workspaceSettingCreateOrUpdate
        (conflictServer [] 500 conflictMarker) "default"
        [("a", .vInt 1)] 3 0 0).2.2 = 3) := by
  have hget : ∀ s', ∃ d, ((conflictServer [] 500 conflictMarker).get s').2 =
      .found d ∧ (wssPutBody d [("a", .vInt 1)]).isSome = true :=
    fun s' => ⟨[], rfl, by simp [wssPutBody, hasKey, lookupKey, restoreEtag]⟩
  have hput : ∀ s' b, ∃ bd,
      ((conflictServer [] 500 conflictMarker).put s' b).2 = .httpErr 500 bd ∧
      strContains bd conflictMarker = true :=
    fun s' b => ⟨conflictMarker, rfl, by decide⟩
  exact ⟨hget, hput,
    C4_bounded_retry (conflictServer [] 500 conflictMarker) "default"
      [("a", .vInt 1)] 0 hget hput⟩

/-- C5 (amended): in `WorkspaceSetting.create_or_update`, an HTTP error
response to the PUT triggers a refetch-and-retry if and only if its status
is exactly 500 and its body contains the "already been modified" marker
(`isConflictRetry`); every other HTTP error — including other 5xx statuses
even with the marker, and 500s without it — is raised to the caller without
retry.  The unamended claim (any 5xx with the marker retries) is refuted by
`C5_counterexample`: a 502 carrying the marker is raised after a single
GET. -/
theorem C5_retry_condition (existing desired b : Doc) (name : String)
    (st : Nat) (bd : String)
    (hbody : wssPutBody existing desired = some b) :
    (2 ≤ countGets (workspaceSettingCreateOrUpdate
        (conflictServer existing st bd) name desired 3 0 0).2.2 ↔
      isConflictRetry st bd = true) ∧
    (isConflictRetry st bd = true ↔
      st = 500 ∧ strContains bd conflictMarker = true) := by
  have hsecond : isConflictRetry st bd = true ↔
      st = 500 ∧ strContains bd conflictMarker = true := by
    simp [isConflictRetry]
  refine ⟨?_, hsecond⟩
  by_cases hc : isConflictRetry st bd = true
  · have h500 : st = 500 := (hsecond.mp hc).1
    have hmark : strContains bd conflictMarker = true := (hsecond.mp hc).2
    subst h500
    obtain ⟨_, _, hcg⟩ := wss_all_conflict (conflictServer existing 500 bd)
      name desired
      (fun s' => ⟨existing, rfl, by simp [hbody]⟩)
      (fun s' b' => ⟨bd, rfl, hmark⟩) 3 0 0
    rw [hcg]
    simp [hc]
  · rw [workspaceSettingCreateOrUpdate, if_neg (by omega)]
    simp only [conflictServer, hbody]
    rw [if_neg hc]
    simp [countGets, List.countP_cons, hc]

/-- C5 witness: the retry criterion evaluated at status 500 with the
conflict-marked body. -/
theorem C5_retry_condition_witness :
    wssPutBody [("etag", .vStr "1")] [("a", .vInt 1)] =
      some [("a", .vInt 1), ("etag", .vStr "1")] ∧
    ((2 ≤ countGets (workspaceSettingCreateOrUpdate
        (conflictServer [("etag", .vStr "1")] 500 conflictMarker) "w"
        [("a", .vInt 1)] 3 0 0).2.2 ↔
      isConflictRetry 500 conflictMarker = true) ∧
     (isConflictRetry 500 conflictMarker = true ↔
      500 = 500 ∧ strContains conflictMarker conflictMarker = true)) := by
  have hb : wssPutBody [("etag", .vStr "1")] [("a", .vInt 1)] =
      some [("a", .vInt 1), ("etag", .vStr "1")] := by
    simp [wssPutBody, hasKey, lookupKey, setKey, restoreEtag, pyTruthy]
  exact ⟨hb, C5_retry_condition [("etag", .vStr "1")] [("a", .vInt 1)]
    [("a", .vInt 1), ("etag", .vStr "1")] "w" 500 conflictMarker hb⟩

/-- C5 counterexample to the unamended claim: a 502 response whose body
contains the conflict marker is a 5xx conflict-marked error, yet the call
raises it immediately — one GET, no refetch-and-retry. -/
theorem C5_counterexample :
    (500 ≤ 502 ∧ 502 < 600 ∧
      strContains conflictMarker conflictMarker = true) ∧
    (workspaceSettingCreateOrUpdate (conflictServer [] 502 conflictMarker)
        "default" [("a", .vInt 1)] 3 0 0).2.1 =
      .raisedHTTP 502 conflictMarker ∧
    countGets (workspaceSettingCreateOrUpdate
        (conflictServer [] 502 conflictMarker) "default"
        [("a", .vInt 1)] 3 0 0).2.2 = 1 := by
  have hbody : wssPutBody [] [("a", .vInt 1)] = some [("a", .vInt 1)] := by
    simp [wssPutBody, hasKey, lookupKey, restoreEtag]
  have hnc : isConflictRetry 502 conflictMarker = false := by
    simp [isConflictRetry]
  refine ⟨⟨by omega, by omega, by decide⟩, ?_, ?_⟩
  · rw [workspaceSettingCreateOrUpdate, if_neg (by omega)]
    simp only [conflictServer, hbody]
    rw [if_neg (by simp [hnc])]
  · rw [workspaceSettingCreateOrUpdate, if_neg (by omega)]
    simp only [conflictServer, hbody]
    rw [if_neg (by simp [hnc])]
    simp [countGets, List.countP_cons]

/-! ## Shape of the protocol traces, per kind -/

theorem noretry_trace_found {σ : Type} (S : Server σ) (wrapKey name : String)
    (desired existing body : Doc) (s : σ)
    (hget : (S.get s).2 = .found existing)
    (hbody : mergedPutBody existing desired = some body) :
    (createOrUpdateNoRetry S wrapKey name desired s).2.2 =
      [.rGet, .rPut body] := by
  simp only [createOrUpdateNoRetry, hget, hbody]
  cases hp : (S.put (S.get s).1 body).2 <;> simp [hp]

theorem noretry_trace_notfound {σ : Type} (S : Server σ)
    (wrapKey name : String) (desired : Doc) (s : σ)
    (hget : (S.get s).2 = .notFound) :
    (createOrUpdateNoRetry S wrapKey name desired s).2.2 =
      [.rGet, .rPost [("name", .vStr name), (wrapKey, .vObj desired)]] := by
  simp only [createOrUpdateNoRetry, hget]
  cases hp : (S.post (S.get s).1
      [("name", .vStr name), (wrapKey, .vObj desired)]).2 <;> simp [hp]

theorem wss_trace_found {σ : Type} (S : Server σ) (name : String)
    (desired existing body : Doc) (s : σ)
    (hget : (S.get s).2 = .found existing)
    (hbody : wssPutBody existing desired = some body) :
    ∃ t, (workspaceSettingCreateOrUpdate S name desired 3 0 s).2.2 =
      .rGet :: .rPut body :: t := by
  rw [workspaceSettingCreateOrUpdate, if_neg (by omega)]
  simp only [hget, hbody]
  cases hp : (S.put (S.get s).1 body).2 with
  | ok resp => exact ⟨[], by simp [hp]⟩
  | httpErr st bd =>
    by_cases hc : isConflictRetry st bd = true
    · refine ⟨(workspaceSettingCreateOrUpdate S name desired 3 (0 + 1)
        (S.put (S.get s).1 body).1).2.2, ?_⟩
      simp [hp, hc]
    · exact ⟨[], by simp [hp, hc]⟩

theorem wss_trace_notfound {σ : Type} (S : Server σ) (name : String)
    (desired : Doc) (s : σ) (hget : (S.get s).2 = .notFound) :
    ∃ t, (workspaceSettingCreateOrUpdate S name desired 3 0 s).2.2 =
      .rGet :: .rPost [("name", .vStr name), ("settings", .vObj desired)] :: t := by
  rw [workspaceSettingCreateOrUpdate, if_neg (by omega)]
  simp only [hget]
  cases hp : (S.post (S.get s).1
      [("name", .vStr name), ("settings", .vObj desired)]).2 with
  | ok resp => exact ⟨[], by simp [hp]⟩
  | httpErr st bd =>
    by_cases hc : isConflictRetry st bd = true
    · refine ⟨(workspaceSettingCreateOrUpdate S name desired 3 (0 + 1)
        (S.post (S.get s).1
          [("name", .vStr name), ("settings", .vObj desired)]).1).2.2, ?_⟩
      simp [hp, hc]
    · exact ⟨[], by simp [hp, hc]⟩

theorem noretry_conflict_no_retry {σ : Type} (S : Server σ)
    (wrapKey name : String) (desired existing body : Doc) (s : σ) {st : Nat}
    {bd : String} (hget : (S.get s).2 = .found existing)
    (hbody : mergedPutBody existing desired = some body)
    (hput : (S.put (S.get s).1 body).2 = .httpErr st bd) :
    (createOrUpdateNoRetry S wrapKey name desired s).2.1 = .raisedHTTP st bd ∧
    countPuts (createOrUpdateNoRetry S wrapKey name desired s).2.2 = 1 := by
  simp only [createOrUpdateNoRetry, hget, hbody, hput]
  simp [countPuts, List.countP_cons, List.countP_nil]

/-- C3 (amended): the GET / on-404-POST-wrapped-desired /
otherwise-merge-and-PUT protocol is implemented uniformly for the three
entity kinds defined in tetrate.py — Workspace, WorkspaceSetting,
GatewayGroup — but the optimistic-concurrency refetch-and-retry with the
ceiling of 3 attempts exists only in `WorkspaceSetting.create_or_update`:
on a conflict-marked failure `Workspace.create_or_update` (and likewise
GatewayGroup's) raises after a single PUT, while WorkspaceSetting retries
to the ceiling.  The fourth kind of the claim, Gateway, is imported by
agent.py but not defined in tetrate.py at all.  The unamended claim is
refuted by `C3_counterexample`. -/
theorem C3_protocol_three_kinds {σ : Type} (S : Server σ) (s1 s2 : σ)
    (name : String) (desired existing bodyM bodyW : Doc) (bd : String)
    (hget1 : (S.get s1).2 = .found existing)
    (hget2 : (S.get s2).2 = .notFound)
    (hbM : mergedPutBody existing desired = some bodyM)
    (hbW : wssPutBody existing desired = some bodyW)
    (hmark : strContains bd conflictMarker = true) :
    ((workspaceCreateOrUpdate S name desired s1).2.2 =
      [.rGet, .rPut bodyM]) ∧
    ((gatewayGroupCreateOrUpdate S name desired s1).2.2 =
      [.rGet, .rPut bodyM]) ∧
    (∃ t, (workspaceSettingCreateOrUpdate S name desired 3 0 s1).2.2 =
      .rGet :: .rPut bodyW :: t) ∧
    ((workspaceCreateOrUpdate S name desired s2).2.2 =
      [.rGet, .rPost [("name", .vStr name), ("workspace", .vObj desired)]]) ∧
    ((gatewayGroupCreateOrUpdate S name desired s2).2.2 =
      [.rGet, .rPost [("name", .vStr name), ("group", .vObj desired)]]) ∧
    (∃ t, (workspaceSettingCreateOrUpdate S name desired 3 0 s2).2.2 =
      .rGet :: .rPost [("name", .vStr name), ("settings", .vObj desired)] :: t) ∧
    ((workspaceCreateOrUpdate (conflictServer existing 500 bd) name desired
        0).2.1 = .raisedHTTP 500 bd ∧
      countPuts (workspaceCreateOrUpdate (conflictServer existing 500 bd) name
        desired 0).2.2 = 1) ∧
    ((workspaceSettingCreateOrUpdate (conflictServer existing 500 bd) name
        desired 3 0 0).2.1 = .raisedMaxRetries ∧
      countPuts (workspaceSettingCreateOrUpdate (conflictServer existing 500 bd)
        name desired 3 0 0).2.2 = 3) := by
  refine ⟨noretry_trace_found S "workspace" name desired existing bodyM s1
      hget1 hbM,
    noretry_trace_found S "group" name desired existing bodyM s1 hget1 hbM,
    wss_trace_found S name desired existing bodyW s1 hget1 hbW,
    noretry_trace_notfound S "workspace" name desired s2 hget2,
    noretry_trace_notfound S "group" name desired s2 hget2,
    wss_trace_notfound S name desired s2 hget2, ?_, ?_⟩
  · exact noretry_conflict_no_retry (conflictServer existing 500 bd)
      "workspace" name desired existing bodyM 0 rfl hbM rfl
  · obtain ⟨h1, h2, _⟩ := wss_all_conflict (conflictServer existing 500 bd)
      name desired (fun s' => ⟨existing, rfl, by simp [hbW]⟩)
      (fun s' b' => ⟨bd, rfl, hmark⟩) 3 0 0
    exact ⟨h1, h2⟩

/-- C3 witness: honest store holding `{"etag": "1"}` for the present path,
empty store for the absent path. -/
theorem C3_protocol_three_kinds_witness :
    ((honestServer "workspace" "e").get (some [("etag", .vStr "1")])).2 =
      .found [("etag", .vStr "1")] ∧
    ((honestServer "workspace" "e").get none).2 = .notFound ∧
    mergedPutBody [("etag", .vStr "1")] [("a", .vInt 1)] =
      some [("etag", .vStr "1"), ("a", .vInt 1)] ∧
    wssPutBody [("etag", .vStr "1")] [("a", .vInt 1)] =
      some [("a", .vInt 1), ("etag", .vStr "1")] ∧
    strContains conflictMarker conflictMarker = true ∧
    ((workspaceCreateOrUpdate (honestServer "workspace" "e") "w"
        [("a", .vInt 1)] (some [("etag", .vStr "1")])).2.2 =
      [.rGet, .rPut [("etag", .vStr "1"), ("a", .vInt 1)]]) := by
  have hbM : mergedPutBody [("etag", .vStr "1")] [("a", .vInt 1)] =
      some [("etag", .vStr "1"), ("a", .vInt 1)] := by
    simp [mergedPutBody, recursive_merge, mergeEntries, mergeStep, lookupKey,
      setKey, restoreEtag, pyTruthy]
  have hbW : wssPutBody [("etag", .vStr "1")] [("a", .vInt 1)] =
      some [("a", .vInt 1), ("etag", .vStr "1")] := by
    simp [wssPutBody, hasKey, lookupKey, setKey, restoreEtag, pyTruthy]
  refine ⟨rfl, rfl, hbM, hbW, by decide, ?_⟩
  exact (C3_protocol_three_kinds (honestServer "workspace" "e")
    (some [("etag", .vStr "1")]) none "w" [("a", .vInt 1)]
    [("etag", .vStr "1")] [("etag", .vStr "1"), ("a", .vInt 1)]
    [("a", .vInt 1), ("etag", .vStr "1")] conflictMarker
    rfl rfl hbM hbW (by decide)).1

/-- C3 counterexample to the unamended claim: on a conflict-marked 500
failure, `Workspace.create_or_update` issues exactly one PUT and raises —
it does not refetch and retry up to 3 attempts, so the protocol including
retry is not implemented uniformly for all kinds. -/
theorem C3_counterexample :
    strContains conflictMarker conflictMarker = true ∧
    (workspaceCreateOrUpdate (conflictServer [("etag", .vStr "1")] 500
        conflictMarker) "w" [("a", .vInt 1)] 0).2.1 =
      .raisedHTTP 500 conflictMarker ∧
    countPuts (workspaceCreateOrUpdate (conflictServer [("etag", .vStr "1")]
        500 conflictMarker) "w" [("a", .vInt 1)] 0).2.2 = 1 := by
  have hbM : mergedPutBody [("etag", .vStr "1")] [("a", .vInt 1)] =
      some [("etag", .vStr "1"), ("a", .vInt 1)] := by
    simp [mergedPutBody, recursive_merge, mergeEntries, mergeStep, lookupKey,
      setKey, restoreEtag, pyTruthy]
  exact ⟨by decide,
    noretry_conflict_no_retry _ "workspace" "w" [("a", .vInt 1)]
      [("etag", .vStr "1")] [("etag", .vStr "1"), ("a", .vInt 1)] 0
      rfl hbM rfl⟩

/-! # The agent (agent.py)

Shallow embedding of the configuration and watch handlers of
src/arca-agent/agent.py.  Python strings are `String`, with splitting done
on the underlying character list so that Python's `str.split` semantics
(`''.split('=') == ['']`, `'a'.split('=') == ['a']`) are captured exactly.
-/

/-- Python `s.split(sep)` (split on every occurrence) on character lists:
`pySplitAll sep l` always returns a non-empty list of fragments. -/
def pySplitAll (sep : Char) : List Char → List (List Char)
  | [] => [[]]
  | c :: cs =>
    if c = sep then [] :: pySplitAll sep cs
    else
      match pySplitAll sep cs with
      | [] => [[c]]
      | p :: ps => (c :: p) :: ps

/-- Python `s.split(sep, 1)` (split at the first occurrence only). -/
def pySplitOnce (sep : Char) : List Char → List (List Char)
  | [] => [[]]
  | c :: cs =>
    if c = sep then [[], cs]
    else
      match pySplitOnce sep cs with
      | [] => [[c]]
      | p :: ps => (c :: p) :: ps

/-- Python `d.get(k, default)`: the stored value (even `None`) if the key is
present, the default otherwise. -/
def pyDictGet (d : Doc) (k : String) (default : Value) : Value :=
  match lookupKey d k with
  | some v => v
  | none => default

/-- `spec.get(k)` — absent keys read as `None`. -/
def specGet (spec : Doc) (k : String) : Value :=
  pyDictGet spec k .vNull

/-- The Python exceptions that the configuration path can produce:
`ValueError` from tuple unpacking / re-raise, `AttributeError` from calling
`.get` on `None`. -/
inductive PyErr where
  | valueErr : PyErr
  | attributeErr : PyErr
  deriving Repr, DecidableEq

/-- The dict built by `process_agentconfig` (agent.py lines 50-72):
`discovery_label` / `service_fabric` / `tetrate` always present,
`discovery_key` / `discovery_value` added only when a truthy label parses. -/
structure AgentConfig where
  discovery_label : Value
  service_fabric : Value
  tetrate : Value
  discovery_key : Option String
  discovery_value : Option String
  deriving Repr, DecidableEq

/-- `AGENT_CONFIG_NAME` (agent.py line 34). -/
def AGENT_CONFIG_NAME : String := "default"

/-- `process_agentconfig` (agent.py lines 50-72).  Reads the three spec
fields (absent → `None`); if `discovery_label` is truthy it is split on the
first `'='` and unpacked into key/value — a fragment count other than two
raises `ValueError` (caught and re-raised as `ValueError`, line 66); if
`service_fabric` is falsy it is replaced by
`config.get('tetrate', {}).get('clusterName', '*')`, which calls `.get` on
the stored `tetrate` value — an `AttributeError` when that value is not a
dict (in particular `None`, since the `'tetrate'` key is always present in
`config` and `.get`'s default is not used). -/
def process_agentconfig (spec : Doc) : Except PyErr AgentConfig :=
  let dl := specGet spec "discoveryLabel"
  let sf := specGet spec "serviceFabric"
  let tz := specGet spec "tetrate"
  let parsed : Except PyErr (Option String × Option String) :=
    if pyTruthy dl then
      match dl with
      | .vStr s =>
        match pySplitOnce '=' s.toList with
        | [k, v] => .ok (some (String.mk k), some (String.mk v))
        | _ => .error .valueErr
      | _ => .error .attributeErr
    else .ok (none, none)
  match parsed with
  | .error e => .error e
  | .ok (dk, dv) =>
    if pyTruthy sf then .ok ⟨dl, sf, tz, dk, dv⟩
    else
      match tz with
      | .vObj td => .ok ⟨dl, pyDictGet td "clusterName" (.vStr "*"), tz, dk, dv⟩
      | _ => .error .attributeErr

/-- Outcome of `initialize_tetrate_connection` (agent.py lines 74-116):
`notConfigured` models the `return False` paths, `connected` the verified
connection, `raised` a connection/verification exception propagating. -/
inductive InitResult where
  | notConfigured : InitResult
  | connected : InitResult
  | raised : InitResult
  deriving Repr, DecidableEq

/-- `initialize_tetrate_connection` (agent.py lines 74-116), with the
outcome of the remote credential test supplied as the oracle `connOk`. -/
def initialize_tetrate_connection (tcfg : Value) (connOk : Bool) : InitResult :=
  if !pyTruthy tcfg then .notConfigured
  else
    match tcfg with
    | .vObj d =>
      if !pyTruthy (pyDictGet d "endpoint" .vNull) then .notConfigured
      else
        let hasAuth := pyTruthy (pyDictGet d "apiToken" .vNull) ||
          (pyTruthy (pyDictGet d "username" .vNull) &&
           pyTruthy (pyDictGet d "password" .vNull))
        if !hasAuth then .notConfigured
        else if connOk then .connected else .raised
    | _ => .raised

/-- What `handle_agentconfig` does with the event: ignore a non-default
name, succeed, or raise `kopf.PermanentError` wrapping the failure. -/
inductive HandlerResult where
  | ignored : HandlerResult
  | updated : HandlerResult
  | permErr : PyErr → HandlerResult
  | permErrInit : HandlerResult
  deriving Repr, DecidableEq

/-- `handle_agentconfig` (agent.py lines 220-237).  The global
`agent_config` is assigned only when `process_agentconfig` returns — a
raising call leaves the previous configuration `st` in place — but it is
already replaced before `initialize_tetrate_connection` runs, so an
initialization failure leaves the NEW config installed.  Every exception is
re-raised as `kopf.PermanentError` (no retry). -/
def handle_agentconfig (name : String) (spec : Doc) (connOk : Bool)
    (st : Option AgentConfig) : Option AgentConfig × HandlerResult :=
  if name = AGENT_CONFIG_NAME then
    match process_agentconfig spec with
    | .error e => (st, .permErr e)
    | .ok cfg =>
      match initialize_tetrate_connection cfg.tetrate connOk with
      | .raised => (some cfg, .permErrInit)
      | _ => (some cfg, .updated)
  else (st, .ignored)

/-- A management-plane (Tetrate API) invocation made by a handler.
`wsMgr ns` stands for a `workspace_manager(ns)` run, whose own remote calls
(Workspace / WorkspaceSetting / GatewayGroup create-or-update) are the
subject of the tetrate.py theory above;
`ggCoU` / `gwCoU` carry the entity name and the desired document. -/
inductive MPCall where
  | wsMgr : String → MPCall
  | ggCoU : String → Doc → MPCall
  | gwCoU : String → Doc → MPCall
  deriving Repr, DecidableEq

/-- How a watch handler's pass ends: normal return or
`kopf.TemporaryError`. -/
inductive WatchOutcome where
  | ok : WatchOutcome
  | tempErr : WatchOutcome
  deriving Repr, DecidableEq

/-- A namespace watch event: `event['type']`, the namespace name, its
current labels, and `event['old']['metadata']['labels']` when that chain of
lookups succeeds (any `KeyError`/`TypeError` on it reads as `none`,
agent.py lines 275-279). -/
structure NsEvent where
  type : String
  name : String
  labels : Doc
  oldLabels : Option Doc
  deriving Repr, DecidableEq

/-- `watch_namespaces` (agent.py lines 250-292): nothing without an active
config with a truthy discovery label; the label is re-split on EVERY `'='`
and unpacked (a fragment count other than two raises inside the `try`, and
the handler converts any exception to `kopf.TemporaryError`); an `ADDED`
event with the matching label, or a `MODIFIED` event that gains it, runs
`workspace_manager(name)`; everything else does nothing. -/
def watch_namespaces (cfg : Option AgentConfig) (ev : NsEvent) :
    List MPCall × WatchOutcome :=
  match cfg with
  | none => ([], .ok)
  | some c =>
    if !pyTruthy c.discovery_label then ([], .ok)
    else
      match c.discovery_label with
      | .vStr s =>
        match pySplitAll '=' s.toList with
        | [kl, vl] =>
          let key := String.mk kl
          let value := String.mk vl
          let has := pyDictGet ev.labels key .vNull == Value.vStr value
          if ev.type == "ADDED" && has then ([.wsMgr ev.name], .ok)
          else if ev.type == "MODIFIED" then
            let had := match ev.oldLabels with
              | some old => pyDictGet old key .vNull == Value.vStr value
              | none => false
            if !had && has then ([.wsMgr ev.name], .ok) else ([], .ok)
          else ([], .ok)
        | _ => ([], .tempErr)
      | _ => ([], .tempErr)

/-- `periodic_workspace_reconciliation` (agent.py lines 300-320) for the
default-named config: re-splits the label the same way, then runs
`workspace_manager` over every namespace the label selector returned
(supplied here as `nss`); an unpack failure raises inside the `try` and
becomes `kopf.TemporaryError`. -/
def periodic_workspace_reconciliation (cfg : Option AgentConfig)
    (nss : List String) : List MPCall × WatchOutcome :=
  match cfg with
  | none => ([], .ok)
  | some c =>
    if !pyTruthy c.discovery_label then ([], .ok)
    else
      match c.discovery_label with
      | .vStr s =>
        match pySplitAll '=' s.toList with
        | [_, _] => (nss.map .wsMgr, .ok)
        | _ => ([], .tempErr)
      | _ => ([], .tempErr)

/-- Kubernetes `metadata.annotations` is a string-to-string map; first
match wins, as for `Doc`. -/
def annGet (anns : List (String × String)) (k : String) : Option String :=
  match anns with
  | [] => none
  | (k', v) :: rest => if k' = k then some v else annGet rest k

/-- Python `str()` of the stored `service_fabric` value as interpolated
into the f-strings of agent.py (container values are not rendered by this
model; every value the agent stores there is a string). -/
def pyStr : Value → String
  | .vStr s => s
  | .vNull => "None"
  | .vBool true => "True"
  | .vBool false => "False"
  | .vInt n => toString n
  | .vList _ => ""
  | .vObj _ => ""

/-- The `gateway_group_config` dict of `handle_service_exposure`
(agent.py lines 346-360). -/
def gateway_group_cfg (sf : Value) (nsName : String) : Doc :=
  [("displayName", .vStr ("Gateway Group for " ++ nsName)),
   ("configMode", .vStr "BRIDGED"),
   ("namespaceSelector", .vObj
     [("names", .vList [.vStr (pyStr sf ++ "/" ++ nsName)])]),
   ("configGenerationMetadata", .vObj
     [("labels", .vObj
       [("arca.io/managed", .vStr "true"),
        ("arca.io/namespace", .vStr nsName)])])]

/-- The `gateway_config` dict of `handle_service_exposure`
(agent.py lines 371-410): hostname from the domain annotation, URI
matched under the path, destination at the service's first port. -/
def gateway_cfg (nsName svcName domain path : String) (port : Int) : Doc :=
  [("workloadSelector", .vObj
     [("namespace", .vStr nsName),
      ("labels", .vObj [("app", .vStr (nsName ++ "-gateway"))])]),
   ("http", .vList [.vObj
     [("name", .vStr svcName),
      ("port", .vInt 80),
      ("hostname", .vStr domain),
      ("routing", .vObj
        [("rules", .vList [.vObj
          [("route", .vObj
            [("serviceDestination", .vObj
              [("host", .vStr (nsName ++ "/" ++ svcName ++ "." ++ nsName ++
                 ".svc.cluster.local")),
               ("port", .vInt port)])]),
           ("match", .vList [.vObj
             [("uri", .vObj [("prefix", .vStr path)])]])]])])]]),
   ("configGenerationMetadata", .vObj
     [("labels", .vObj
       [("arca.io/managed", .vStr "true"),
        ("arca.io/service", .vStr svcName)])])]

/-- The status annotation write `handle_service_exposure` ends with:
none at all, `status=exposed` plus gateway name and computed URL, or
`status=error` plus the error string. -/
inductive PatchAction where
  | noPatch : PatchAction
  | exposedP : String → String → PatchAction
  | errorP : String → PatchAction
  deriving Repr, DecidableEq

/-- `handle_service_exposure` (agent.py lines 322-446).  `sf` is the
active config's `service_fabric` value, `ggRes` / `gwRes` the outcomes of
the two remote create-or-update calls (`some msg` = exception with message
`msg`, turned by the handler's `except` into the error patch).  A service
not annotated `arca.io/expose=true`, or whose domain annotation is absent
or falsy (empty), is left entirely alone: no remote call and no status
patch.  (The `Gateway` entity class is imported by agent.py but absent
from tetrate.py; its create-or-update is represented only as the `gwCoU`
invocation carrying the desired document.) -/
def handle_service_exposure (sf : Value) (svcName nsName : String)
    (anns : List (String × String)) (port : Int)
    (ggRes gwRes : Option String) : List MPCall × PatchAction :=
  if annGet anns "arca.io/expose" ≠ some "true" then ([], .noPatch)
  else
    match annGet anns "arca.io/domain" with
    | none => ([], .noPatch)
    | some d =>
      if d = "" then ([], .noPatch)
      else
        let path := (annGet anns "arca.io/path").getD "/"
        let ggc := gateway_group_cfg sf nsName
        match ggRes with
        | some msg => ([.ggCoU (nsName ++ "-gateways") ggc], .errorP msg)
        | none =>
          let gwc := gateway_cfg nsName svcName d path port
          match gwRes with
          | some msg =>
            ([.ggCoU (nsName ++ "-gateways") ggc,
              .gwCoU (svcName ++ "-gateway") gwc], .errorP msg)
          | none =>
            ([.ggCoU (nsName ++ "-gateways") ggc,
              .gwCoU (svcName ++ "-gateway") gwc],
             .exposedP (svcName ++ "-gateway") ("http://" ++ d ++ path))

/-- `watch_services` (agent.py lines 448-489): nothing without an active
config with a truthy discovery label; the namespace's labels are read
FIRST and a non-matching namespace skips the service before any
management-plane object is touched; an uninitialized Tetrate connection
(`connOk = false`, the `ValueError` from `get_instance`) also returns
quietly; otherwise the service goes through `handle_service_exposure`.
An unpack failure of the label is caught by the outer `except` and only
logged. -/
def watch_services (cfg : Option AgentConfig) (nsLabels : Doc)
    (svcName nsName : String) (anns : List (String × String)) (port : Int)
    (connOk : Bool) (ggRes gwRes : Option String) :
    List MPCall × PatchAction :=
  match cfg with
  | none => ([], .noPatch)
  | some c =>
    if !pyTruthy c.discovery_label then ([], .noPatch)
    else
      match c.discovery_label with
      | .vStr s =>
        match pySplitAll '=' s.toList with
        | [kl, vl] =>
          if pyDictGet nsLabels (String.mk kl) .vNull ==
              Value.vStr (String.mk vl) then
            if connOk then
              handle_service_exposure c.service_fabric svcName nsName anns
                port ggRes gwRes
            else ([], .noPatch)
          else ([], .noPatch)
        | _ => ([], .noPatch)
      | _ => ([], .noPatch)

/-- Config-time parse of the discovery label:
`key, value = label.split('=', 1)` (agent.py line 61). -/
def configParse (s : String) : Option (String × String) :=
  match pySplitOnce '=' s.toList with
  | [k, v] => some (String.mk k, String.mk v)
  | _ => none

/-- Handler-time re-parse of the same label:
`key, value = label.split('=')` (agent.py lines 258, 310, 457). -/
def handlerParse (s : String) : Option (String × String) :=
  match pySplitAll '=' s.toList with
  | [k, v] => some (String.mk k, String.mk v)
  | _ => none

/-! ## Split semantics -/

theorem pySplitAll_of_not_mem (sep : Char) (l : List Char) (h : sep ∉ l) :
    pySplitAll sep l = [l] := by
  induction l with
  | nil => rfl
  | cons c cs ih =>
    have hc : ¬c = sep := fun hh => h (hh ▸ List.mem_cons_self c cs)
    have hcs : sep ∉ cs := fun hh => h (List.mem_cons_of_mem c hh)
    simp [pySplitAll, hc, ih hcs]

theorem pySplitAll_append (sep : Char) (a b : List Char) (ha : sep ∉ a) :
    pySplitAll sep (a ++ sep :: b) = a :: pySplitAll sep b := by
  induction a with
  | nil => simp [pySplitAll]
  | cons c cs ih =>
    have hc : ¬c = sep := fun hh => ha (hh ▸ List.mem_cons_self c cs)
    have hcs : sep ∉ cs := fun hh => ha (List.mem_cons_of_mem c hh)
    simp [pySplitAll, hc, ih hcs]

theorem pySplitOnce_of_not_mem (sep : Char) (l : List Char) (h : sep ∉ l) :
    pySplitOnce sep l = [l] := by
  induction l with
  | nil => rfl
  | cons c cs ih =>
    have hc : ¬c = sep := fun hh => h (hh ▸ List.mem_cons_self c cs)
    have hcs : sep ∉ cs := fun hh => h (List.mem_cons_of_mem c hh)
    simp [pySplitOnce, hc, ih hcs]

theorem pySplitOnce_append (sep : Char) (a b : List Char) (ha : sep ∉ a) :
    pySplitOnce sep (a ++ sep :: b) = [a, b] := by
  induction a with
  | nil => simp [pySplitOnce]
  | cons c cs ih =>
    have hc : ¬c = sep := fun hh => ha (hh ▸ List.mem_cons_self c cs)
    have hcs : sep ∉ cs := fun hh => ha (List.mem_cons_of_mem c hh)
    simp [pySplitOnce, hc, ih hcs]

/-- A list with exactly one occurrence of `sep` decomposes uniquely around
it. -/
theorem count_one_split (sep : Char) (l : List Char)
    (h : l.count sep = 1) :
    ∃ a b, l = a ++ sep :: b ∧ sep ∉ a ∧ sep ∉ b := by
  induction l with
  | nil => simp at h
  | cons c cs ih =>
    by_cases hc : c = sep
    · subst hc
      have h0 : cs.count c = 0 := by
        have h' := h
        rw [List.count_cons_self] at h'
        omega
      refine ⟨[], cs, rfl, by simp, ?_⟩
      exact (List.count_eq_zero).mp h0
    · have h' : cs.count sep = 1 := by
        rwa [List.count_cons_of_ne (Ne.symm hc)] at h
      obtain ⟨a, b, hab, hna, hnb⟩ := ih h'
      refine ⟨c :: a, b, by simp [hab], ?_, hnb⟩
      intro hm
      rcases List.mem_cons.mp hm with h1 | h1
      · exact hc h1.symm
      · exact hna h1

/-- C10 (amended): re-parsing a discovery label inside the namespace event
handler and the periodic reconciliation timer succeeds and yields the same
(key, value) pair as configuration-time parsing, provided the label
contains exactly one `'='`.  Configuration-time parsing uses
`split('=', 1)` while each handler uses `split('=')`, so a label with two
or more `'='` characters is accepted at configuration time but raises
`ValueError` at every handler re-parse (`C10_counterexample`). -/
theorem C10_label_reparse (s : String) (c : AgentConfig) (nss : List String)
    (ev : NsEvent) (hdl : c.discovery_label = .vStr s)
    (hcount : s.toList.count '=' = 1) :
    configParse s = handlerParse s ∧
    (configParse s).isSome = true ∧
    (periodic_workspace_reconciliation (some c) nss).2 = .ok ∧
    (watch_namespaces (some c) ev).2 = .ok := by
  obtain ⟨a, b, hab, hna, hnb⟩ := count_one_split '=' s.toList hcount
  have hsplitA : pySplitAll '=' s.toList = [a, b] := by
    rw [hab, pySplitAll_append '=' a b hna, pySplitAll_of_not_mem '=' b hnb]
  have hsplitO : pySplitOnce '=' s.toList = [a, b] := by
    rw [hab, pySplitOnce_append '=' a b hna]
  have hne : ¬s = "" := by
    intro hs
    rw [hs] at hcount
    exact absurd hcount (by decide)
  have hT : pyTruthy (Value.vStr s) = true := by simp [pyTruthy, hne]
  have hsplitA' : pySplitAll '=' s.data = [a, b] := hsplitA
  have hsplitO' : pySplitOnce '=' s.data = [a, b] := hsplitO
  refine ⟨by simp [configParse, handlerParse, hsplitA, hsplitO, hsplitA',
      hsplitO'],
    by simp [configParse, hsplitO, hsplitO'], ?_, ?_⟩
  · simp [periodic_workspace_reconciliation, hdl, hT, hsplitA, hsplitA']
  · simp only [watch_namespaces, hdl, hT, Bool.not_true, Bool.false_eq_true,
      if_false, hsplitA]
    split
    · rfl
    · split
      · split <;> rfl
      · rfl

/-- C10 witness: the label `app=true` parses the same way in both places
and both handlers run without raising. -/
theorem C10_label_reparse_witness :
    ("app=true".toList.count '=' = 1) ∧
    configParse "app=true" = handlerParse "app=true" ∧
    (configParse "app=true").isSome = true ∧
    (periodic_workspace_reconciliation
      (some ⟨.vStr "app=true", .vStr "sf", .vNull, some "app", some "true"⟩)
      ["ns1"]).2 = .ok ∧
    (watch_namespaces
      (some ⟨.vStr "app=true", .vStr "sf", .vNull, some "app", some "true"⟩)
      ⟨"ADDED", "ns1", [("app", .vStr "true")], none⟩).2 = .ok := by
  refine ⟨by decide, ?_⟩
  exact C10_label_reparse "app=true"
    ⟨.vStr "app=true", .vStr "sf", .vNull, some "app", some "true"⟩
    ["ns1"] ⟨"ADDED", "ns1", [("app", .vStr "true")], none⟩ rfl (by decide)

/-- C10 counterexample to the unamended claim: `a=b=c` contains an `'='`
so configuration processing accepts it (`split('=', 1)` gives
`("a", "b=c")`), but the handler-side `split('=')` yields three fragments,
so the two-variable unpack raises: the namespace watcher turns this into
`kopf.TemporaryError` on every event and the periodic reconciliation
raises likewise — the re-parse neither succeeds nor agrees. -/
theorem C10_counterexample :
    (1 ≤ "a=b=c".toList.count '=') ∧
    configParse "a=b=c" = some ("a", "b=c") ∧
    handlerParse "a=b=c" = none ∧
    (watch_namespaces
      (some ⟨.vStr "a=b=c", .vStr "sf", .vNull, some "a", some "b=c"⟩)
      ⟨"ADDED", "ns1", [("a", .vStr "b=c")], none⟩).2 = .tempErr ∧
    (periodic_workspace_reconciliation
      (some ⟨.vStr "a=b=c", .vStr "sf", .vNull, some "a", some "b=c"⟩)
      ["ns1"]).2 = .tempErr := by
  decide

/-- C8 (amended): a configuration whose discoveryLabel is a NON-EMPTY
string containing no `'='` makes `process_agentconfig` raise `ValueError`;
`handle_agentconfig` converts it to `kopf.PermanentError` (reported, not
retried, process alive) and — because the exception fires before the
assignment to the global — the previously active configuration is
retained.  An EMPTY discoveryLabel also contains no `'='`, yet it is falsy,
so the parse is skipped entirely: the malformed configuration is accepted
and replaces the active one (`C8_counterexample`). -/
theorem C8_malformed_label (spec : Doc) (s : String) (connOk : Bool)
    (st : Option AgentConfig)
    (hdl : lookupKey spec "discoveryLabel" = some (.vStr s))
    (hne : ¬s = "") (hnosep : '=' ∉ s.toList) :
    process_agentconfig spec = .error .valueErr ∧
    handle_agentconfig AGENT_CONFIG_NAME spec connOk st =
      (st, .permErr .valueErr) := by
  have hsp : pySplitOnce '=' s.toList = [s.toList] :=
    pySplitOnce_of_not_mem '=' s.toList hnosep
  have hsp' : pySplitOnce '=' s.data = [s.data] := hsp
  have hT : pyTruthy (Value.vStr s) = true := by simp [pyTruthy, hne]
  have hp : process_agentconfig spec = .error .valueErr := by
    simp [process_agentconfig, specGet, pyDictGet, hdl, hT, hsp, hsp']
  exact ⟨hp, by simp [handle_agentconfig, AGENT_CONFIG_NAME, hp]⟩

/-- C8 witness: the label `nolabel` fails fast and the prior configuration
survives. -/
theorem C8_malformed_label_witness :
    (lookupKey [("discoveryLabel", Value.vStr "nolabel"),
        ("serviceFabric", Value.vStr "sf")] "discoveryLabel" =
      some (.vStr "nolabel")) ∧
    (¬"nolabel" = "") ∧ ('=' ∉ "nolabel".toList) ∧
    (process_agentconfig [("discoveryLabel", Value.vStr "nolabel"),
        ("serviceFabric", Value.vStr "sf")] = .error .valueErr ∧
     handle_agentconfig AGENT_CONFIG_NAME
        [("discoveryLabel", Value.vStr "nolabel"),
         ("serviceFabric", Value.vStr "sf")] true
        (some ⟨.vStr "old=x", .vStr "sf", .vNull, some "old", some "x"⟩) =
      (some ⟨.vStr "old=x", .vStr "sf", .vNull, some "old", some "x"⟩,
       .permErr .valueErr)) := by
  refine ⟨by decide, by decide, by decide, ?_⟩
  exact C8_malformed_label
    [("discoveryLabel", Value.vStr "nolabel"),
     ("serviceFabric", Value.vStr "sf")] "nolabel" true
    (some ⟨.vStr "old=x", .vStr "sf", .vNull, some "old", some "x"⟩)
    (by decide) (by decide) (by decide)

/-- C8 counterexample to the unamended claim: the empty discoveryLabel
contains no `'='` separator, yet processing does NOT fail — the falsy
label skips the parse, the handler reports success, and the malformed
configuration replaces the previously active one. -/
theorem C8_counterexample :
    ('=' ∉ "".toList) ∧
    (handle_agentconfig AGENT_CONFIG_NAME
        [("discoveryLabel", Value.vStr ""), ("serviceFabric", Value.vStr "sf")]
        true
        (some ⟨.vStr "old=x", .vStr "sf", .vNull, some "old", some "x"⟩)).2 =
      .updated ∧
    (handle_agentconfig AGENT_CONFIG_NAME
        [("discoveryLabel", Value.vStr ""), ("serviceFabric", Value.vStr "sf")]
        true
        (some ⟨.vStr "old=x", .vStr "sf", .vNull, some "old", some "x"⟩)).1 ≠
      some ⟨.vStr "old=x", .vStr "sf", .vNull, some "old", some "x"⟩ := by
  decide

/-- C7: a namespace event whose labels do not carry the active
configuration's key/value pair runs no `workspace_manager`, and a service
event in such a namespace is skipped before any management-plane object is
touched: both handlers make zero management-plane calls and the service
is not patched. -/
theorem C7_admission_filter (c : AgentConfig) (s : String) (kl vl : List Char)
    (ev : NsEvent) (nsLabels : Doc) (svcName nsName : String)
    (anns : List (String × String)) (port : Int) (connOk : Bool)
    (ggRes gwRes : Option String)
    (hdl : c.discovery_label = .vStr s)
    (hsplit : pySplitAll '=' s.toList = [kl, vl])
    (hns : (pyDictGet ev.labels (String.mk kl) .vNull ==
      Value.vStr (String.mk vl)) = false)
    (hsvc : (pyDictGet nsLabels (String.mk kl) .vNull ==
      Value.vStr (String.mk vl)) = false) :
    (watch_namespaces (some c) ev).1 = [] ∧
    watch_services (some c) nsLabels svcName nsName anns port connOk ggRes
      gwRes = ([], .noPatch) := by
  have hsplit' : pySplitAll '=' s.data = [kl, vl] := hsplit
  by_cases hT : pyTruthy (Value.vStr s) = true
  · constructor
    · simp [watch_namespaces, hdl, hT, hsplit, hsplit', hns]
    · simp [watch_services, hdl, hT, hsplit, hsplit', hsvc]
  · have hF : pyTruthy (Value.vStr s) = false := by
      revert hT
      cases pyTruthy (Value.vStr s) <;> simp
    constructor
    · simp [watch_namespaces, hdl, hF]
    · simp [watch_services, hdl, hF]

/-- C7 witness: configuration selecting `app=true`, namespace labelled
`app=false` (namespace event) resp. `other=x` (service event). -/
theorem C7_admission_filter_witness :
    pySplitAll '=' "app=true".toList = ["app".toList, "true".toList] ∧
    (pyDictGet [("app", Value.vStr "false")] (String.mk "app".toList)
      .vNull == Value.vStr (String.mk "true".toList)) = false ∧
    (pyDictGet [("other", Value.vStr "x")] (String.mk "app".toList)
      .vNull == Value.vStr (String.mk "true".toList)) = false ∧
    ((watch_namespaces
        (some ⟨.vStr "app=true", .vStr "sf", .vNull, some "app", some "true"⟩)
        ⟨"ADDED", "ns1", [("app", Value.vStr "false")], none⟩).1 = [] ∧
     watch_services
        (some ⟨.vStr "app=true", .vStr "sf", .vNull, some "app", some "true"⟩)
        [("other", Value.vStr "x")] "svc" "ns1"
        [("arca.io/expose", "true"), ("arca.io/domain", "example.com")] 80
        true none none = ([], .noPatch)) := by
  refine ⟨by decide, by decide, by decide, ?_⟩
  exact C7_admission_filter
    ⟨.vStr "app=true", .vStr "sf", .vNull, some "app", some "true"⟩
    "app=true" "app".toList "true".toList
    ⟨"ADDED", "ns1", [("app", Value.vStr "false")], none⟩
    [("other", Value.vStr "x")] "svc" "ns1"
    [("arca.io/expose", "true"), ("arca.io/domain", "example.com")] 80
    true none none rfl (by decide) (by decide) (by decide)

/-- The hostname of the (single) HTTP route of a gateway document. -/
def routeHostnameOf (g : Doc) : Option Value :=
  match lookupKey g "http" with
  | some (.vList (.vObj r :: _)) => lookupKey r "hostname"
  | _ => none

/-- The URI match value of the first routing rule of the (single) HTTP
route of a gateway document. -/
def routePathMatchOf (g : Doc) : Option Value :=
  match lookupKey g "http" with
  | some (.vList (.vObj r :: _)) =>
    match lookupKey r "routing" with
    | some (.vObj ro) =>
      match lookupKey ro "rules" with
      | some (.vList (.vObj rule :: _)) =>
        match lookupKey rule "match" with
        | some (.vList (.vObj m :: _)) =>
          match lookupKey m "uri" with
          | some (.vObj u) => lookupKey u "prefix"
          | _ => none
        | _ => none
      | _ => none
    | _ => none
  | _ => none

/-- C9 (amended): for a service annotated `arca.io/expose=true` with a
TRUTHY (non-empty) domain annotation, exposure builds the gateway route
with hostname taken from the domain annotation and URI matched under the
path annotation (defaulting to `/` when absent), and patches the service
with status `exposed` plus the URL `http://{domain}{path}` on success, or
status `error` plus the error string when either remote call fails.  A
service CARRYING the domain annotation with the empty value is silently
skipped — no route, no status patch at all (`C9_counterexample`). -/
theorem C9_service_exposure (sf : Value) (svcName nsName d p : String)
    (anns : List (String × String)) (port : Int) (msg msg2 : String)
    (hexp : annGet anns "arca.io/expose" = some "true")
    (hdom : annGet anns "arca.io/domain" = some d)
    (hd : ¬d = "")
    (hpath : (annGet anns "arca.io/path").getD "/" = p) :
    handle_service_exposure sf svcName nsName anns port none none =
      ([.ggCoU (nsName ++ "-gateways") (gateway_group_cfg sf nsName),
        .gwCoU (svcName ++ "-gateway")
          (gateway_cfg nsName svcName d p port)],
       .exposedP (svcName ++ "-gateway") ("http://" ++ d ++ p)) ∧
    routeHostnameOf (gateway_cfg nsName svcName d p port) =
      some (.vStr d) ∧
    routePathMatchOf (gateway_cfg nsName svcName d p port) =
      some (.vStr p) ∧
    (handle_service_exposure sf svcName nsName anns port (some msg)
      none).2 = .errorP msg ∧
    (handle_service_exposure sf svcName nsName anns port none
      (some msg2)).2 = .errorP msg2 := by
  refine ⟨?_, ?_, ?_, ?_, ?_⟩
  · simp [handle_service_exposure, hexp, hdom, hd, hpath]
  · simp [routeHostnameOf, gateway_cfg, lookupKey]
  · simp [routePathMatchOf, gateway_cfg, lookupKey]
  · simp [handle_service_exposure, hexp, hdom, hd, hpath]
  · simp [handle_service_exposure, hexp, hdom, hd, hpath]

/-- C9 witness: `svc` in `ns` exposed at `example.com` under `/api`. -/
theorem C9_service_exposure_witness :
    (annGet [("arca.io/expose", "true"), ("arca.io/domain", "example.com"),
        ("arca.io/path", "/api")] "arca.io/expose" = some "true") ∧
    (annGet [("arca.io/expose", "true"), ("arca.io/domain", "example.com"),
        ("arca.io/path", "/api")] "arca.io/domain" = some "example.com") ∧
    (¬"example.com" = "") ∧
    ((annGet [("arca.io/expose", "true"), ("arca.io/domain", "example.com"),
        ("arca.io/path", "/api")] "arca.io/path").getD "/" = "/api") ∧
    handle_service_exposure (.vStr "sf") "svc" "ns"
        [("arca.io/expose", "true"), ("arca.io/domain", "example.com"),
         ("arca.io/path", "/api")] 80 none none =
      ([.ggCoU ("ns" ++ "-gateways") (gateway_group_cfg (.vStr "sf") "ns"),
        .gwCoU ("svc" ++ "-gateway")
          (gateway_cfg "ns" "svc" "example.com" "/api" 80)],
       .exposedP ("svc" ++ "-gateway")
         ("http://" ++ "example.com" ++ "/api")) := by
  refine ⟨by decide, by decide, by decide, by decide, ?_⟩
  exact (C9_service_exposure (.vStr "sf") "svc" "ns" "example.com" "/api"
    [("arca.io/expose", "true"), ("arca.io/domain", "example.com"),
     ("arca.io/path", "/api")] 80 "boom" "boom2"
    (by decide) (by decide) (by decide) (by decide)).1

/-- C9 counterexample to the unamended claim: a service that CARRIES the
domain annotation — with the empty-string value — and is annotated
`arca.io/expose=true` gets no gateway route built and is patched with
neither `status=exposed` nor `status=error`: `if not domain` tests Python
truthiness, not presence. -/
theorem C9_counterexample :
    annGet [("arca.io/expose", "true"), ("arca.io/domain", "")]
      "arca.io/domain" = some "" ∧
    handle_service_exposure (.vStr "sf") "svc" "ns"
      [("arca.io/expose", "true"), ("arca.io/domain", "")] 80 none none =
      ([], .noPatch) := by
  decide

end Arca
